import Mathlib

/-!
Verification of the TML parser / static site generator
(`template_engine.py` and `tml_to_site.py`).

Strings are modelled as `List Char` (`Str`), so that every operation is an
executable structural recursion.  Python regular-expression substitutions are
embedded as deterministic left-to-right scanners: each scanner tries to match
the (deterministic) pattern at the current position, emits the replacement and
continues after the match, or copies one character and retries, exactly the
semantics of `re.sub` for the patterns used by the source (none of which needs
backtracking beyond greedy runs, as argued lemma by lemma below).

Recursive partial expansion (`TemplateEngine._render_partials`) can diverge on
cyclic partials in the source (Python recursion without any bound); it is
embedded with an explicit fuel parameter, `none` modelling the uncaught
`RecursionError` / divergence.  Scanners that always terminate get fuel
`length + 1` from a wrapper, which is always sufficient (each step consumes at
least one character).

The filesystem is modelled by finite association lists inside
`TemplateEngine` (`tfiles` = files of the template directory, `pfiles` = files
of its `partials/` subdirectory); the memo caches `_cache`/`_partial_cache`
are semantically transparent within one build (they store exactly the value
the lookup would produce and the directory is never mutated mid-run), so
loads are embedded as pure lookups.
-/

abbrev Str := List Char

def str (s : String) : Str := s.data

/-- Python whitespace (`str.strip`, regex `\s`), restricted to the usual
ASCII characters plus the common Unicode space code points. -/
def pyWsChar (c : Char) : Bool :=
  (c == ' ') || (c == '\t') || (c == '\n') || (c == '\r') || (c == '\x0b') ||
  (c == '\x0c') || (c == '\x1c') || (c == '\x1d') || (c == '\x1e') ||
  (c == '\x1f') || (c == '\x85') || (c == '\xa0') || (c == '\u1680') ||
  ('\u2000' ≤ c && c ≤ '\u200A') || (c == '\u2028') || (c == '\u2029') ||
  (c == '\u202F') || (c == '\u205F') || (c == '\u3000')

/-- First-match association-list lookup, the model of a Python dict lookup. -/
def lookupStr (m : List (Str × Str)) (k : Str) : Option Str :=
  match m with
  | [] => none
  | (k', v) :: rest => if k' == k then some v else lookupStr rest k

/-- Right-trim: removes the trailing run of `p`-characters. -/
def rstrip (p : Char → Bool) : Str → Str
  | [] => []
  | c :: cs =>
    let r := rstrip p cs
    if r.isEmpty && p c then [] else c :: r

/-- `str.strip()` from the left and the right. -/
def pyStrip (p : Char → Bool) (s : Str) : Str := rstrip p (s.dropWhile p)

/-- The built-in default templates of `TemplateEngine.get_default_template`,
reproduced byte for byte from the source dict (braces written `\x7b`/`\x7d`). -/
def default_base : Str := str "<!doctype html>\n<html>\n<head>\n  <meta charset=\"utf-8\">\n  <meta name=\"viewport\" content=\"width=device-width,initial-scale=1\">\n  <title>\x7b\x7b title \x7d\x7d</title>\n  \x7b\x7b> styles \x7d\x7d\n</head>\n<body data-course-id=\"\x7b\x7b course_id \x7d\x7d\" data-total-lessons=\"\x7b\x7b total_lessons \x7d\x7d\">\n  \x7b\x7b> header \x7d\x7d\n  <main>\n    <div class=\"container\">\n      \x7b\x7b content \x7d\x7d\n    </div>\n  </main>\n  \x7b\x7b> footer \x7d\x7d\n  \x7b\x7b> scripts \x7d\x7d\n</body>\n</html>"

def default_index : Str := str "\x7b\x7b> base \x7d\x7d\n"

def default_lesson : Str := str "\x7b\x7b> base \x7d\x7d\n"

def default_header : Str := str "<header>\n  <div class=\"container\">\n    \x7b\x7b header_content \x7d\x7d\n  </div>\n</header>"

def default_footer : Str := str "<footer>\n  <div class=\"container\">\n    <div class=\"small\">Generated by TML Parser v0.1</div>\n  </div>\n</footer>"

def default_styles : Str := str "<style>\n:root\x7b--accent:#1f6feb;\x7d\n*\x7bbox-sizing:border-box\x7d\nbody\x7bfont-family:system-ui,-apple-system,Segoe UI,Roboto,Ubuntu,Arial,sans-serif;line-height:1.6;margin:0;padding:0;background:#0e1116;color:#c9d1d9\x7d\na\x7bcolor:var(--accent);text-decoration:none\x7d\na:hover\x7btext-decoration:underline\x7d\nheader,footer\x7bbackground:#0b0e14;padding:1rem 1.25rem;border-bottom:1px solid #161b22\x7d\n.container\x7bmax-width:980px;margin:0 auto;padding:1.25rem\x7d\n.card\x7bbackground:#0b0e14;border:1px solid #161b22;border-radius:12px;padding:1rem;margin:1rem 0\x7d\n.btn\x7bdisplay:inline-block;padding:.5rem .9rem;border:1px solid #30363d;border-radius:8px;background:#161b22;color:#c9d1d9;cursor:pointer\x7d\n.btn:hover\x7bbackground:#1b2330\x7d\n.progress\x7bwidth:100%;height:10px;background:#161b22;border-radius:999px;overflow:hidden;border:1px solid #30363d\x7d\n.progress > span\x7bdisplay:block;height:100%;background:var(--accent);width:0%\x7d\n.badge\x7bdisplay:inline-block;background:#161b22;border:1px solid #30363d;padding:.2rem .5rem;border-radius:999px;margin-right:.25rem\x7d\n.quiz\x7bmargin-top:1rem\x7d\n.quiz .q\x7bmargin:.5rem 0;padding:.75rem;border:1px dashed #30363d;border-radius:8px\x7d\ncode\x7bbackground:#161b22;border:1px solid #30363d;border-radius:6px;padding:.1rem .3rem\x7d\nul\x7bmargin:.25rem 0 .75rem .9rem\x7d\nh1,h2,h3\x7bcolor:#e6edf3\x7d\n.small\x7bfont-size:.9rem;color:#8b949e\x7d\nfooter\x7bborder-top:1px solid #161b22;border-bottom:0;margin-top:2rem\x7d\nkbd\x7bborder:1px solid #30363d;border-bottom-width:2px;padding:.1rem .25rem;border-radius:4px;background:#0b0e14\x7d\n</style>"

def default_scripts : Str := str "<script>\nconst storeKey = (courseId) => `tml-progress::$\x7bcourseId\x7d`;\nfunction getProgress(courseId)\x7b\n  const raw = localStorage.getItem(storeKey(courseId));\n  return raw ? JSON.parse(raw) : \x7bcompletedLessons: \x7b\x7d, scores: \x7b\x7d\x7d;\n\x7d\nfunction setProgress(courseId, data)\x7b\n  localStorage.setItem(storeKey(courseId), JSON.stringify(data));\n\x7d\nfunction markLessonComplete(courseId, lessonId)\x7b\n  const p = getProgress(courseId);\n  p.completedLessons[lessonId] = true;\n  setProgress(courseId, p);\n  updateProgressBar(courseId);\n\x7d\nfunction saveScore(courseId, assessId, score)\x7b\n  const p = getProgress(courseId);\n  p.scores[assessId] = Math.max(p.scores[assessId]||0, score);\n  setProgress(courseId, p);\n  updateProgressBar(courseId);\n\x7d\nfunction updateProgressBar(courseId)\x7b\n  const p = getProgress(courseId);\n  const total = parseInt(document.body.dataset.totalLessons || \"0\");\n  const done = Object.keys(p.completedLessons).length;\n  const pct = total>0 ? Math.round((done/total)*100) : 0;\n  const el = document.querySelector('.progress > span');\n  if(el)\x7b el.style.width = pct + '%'; \x7d\n  const label = document.getElementById('progress-label');\n  if(label)\x7b label.textContent = pct + '% complete'; \x7d\n\x7d\nfunction checkQuiz(courseId, assessId)\x7b\n  const assessEl = document.querySelector(`[data-assessment='$\x7bassessId\x7d']`);\n  let total=0, correct=0;\n  assessEl.querySelectorAll('.q').forEach((q)=>\x7b\n    total++;\n    const type = q.dataset.type;\n    if(type==='mcq')\x7b\n      const chosen = q.querySelector('input[type=radio]:checked');\n      if(!chosen) return;\n      if(chosen.value === 'true') correct++;\n    \x7delse if(type==='msq')\x7b\n      let ok=true, any=false;\n      q.querySelectorAll('input[type=checkbox]').forEach(cb=>\x7b\n        any = any || cb.checked;\n        if((cb.value==='true') !== cb.checked)\x7b ok=false; \x7d\n      \x7d);\n      if(any && ok) correct++;\n    \x7delse if(type==='truefalse')\x7b\n      const chosen = q.querySelector('input[type=radio]:checked');\n      if(chosen && chosen.value === q.dataset.answer) correct++;\n    \x7d\n  \x7d);\n  const score = Math.round((correct/Math.max(total,1))*100);\n  saveScore(courseId, assessId, score);\n  const out = assessEl.querySelector('.quiz-result');\n  if(out)\x7b out.textContent = `Score: $\x7bscore\x7d% ($\x7bcorrect\x7d/$\x7bMath.max(total,1)\x7d)`; \x7d\n\x7d\ndocument.addEventListener('DOMContentLoaded', ()=>\x7b\n  const cid = document.body.dataset.courseId;\n  updateProgressBar(cid);\n\x7d);\n</script>"

/-- The `defaults` dict of `get_default_template`, in source order. -/
def defaults_table : List (Str × Str) :=
  [ (str "base.html", default_base),
    (str "index.html", default_index),
    (str "lesson.html", default_lesson),
    (str "partials/header.html", default_header),
    (str "partials/footer.html", default_footer),
    (str "partials/styles.html", default_styles),
    (str "partials/scripts.html", default_scripts) ]

/-- `TemplateEngine.get_default_template`: `defaults.get(name, "")`. -/
def get_default_template (name : Str) : Str :=
  (lookupStr defaults_table name).getD []

/-- The template engine's observable state: the files of the optional template
directory.  `template_dir = None` is the state with both lists empty. -/
structure TemplateEngine where
  tfiles : List (Str × Str)
  pfiles : List (Str × Str)

/-- `TemplateEngine._load_template` (file lookup, else default, else `""`). -/
def load_template (e : TemplateEngine) (name : Str) (use_defaults : Bool) : Str :=
  match lookupStr e.tfiles name with
  | some c => c
  | none => if use_defaults then get_default_template name else []

/-- `TemplateEngine._load_partial`: resolves `name` (with or without `.html`)
against `partials/` in the template dir, then the built-in defaults. -/
def load_partial (e : TemplateEngine) (name : Str) (use_defaults : Bool) : Str :=
  let key := if (str ".html").isSuffixOf name then name else name ++ str ".html"
  match lookupStr e.pfiles key with
  | some c => c
  | none => if use_defaults then get_default_template (str "partials/" ++ key) else []

/-- The placeholder comment produced for an unresolvable partial. -/
def partial_not_found (nm : Str) : Str :=
  str "<!-- Partial '" ++ nm ++ str "' not found -->"

/-- The placeholder comment produced for an unresolvable template. -/
def template_not_found (nm : Str) : Str :=
  str "<!-- Template '" ++ nm ++ str "' not found -->"

/-- Matcher for the partial-reference pattern at the start of the string
(regex `\x7b\x7b>\s*([^\s\x7d]+)\s*\x7d\x7d`): returns the captured name and
the rest of the input after the match.  The pattern is deterministic: the
greedy name run cannot backtrack usefully because shrinking it places a
non-space non-brace character where `\s*\x7d\x7d` must match. -/
def refNameChar (c : Char) : Bool := !(pyWsChar c) && !(c == '}')

def matchPartialRef (s : Str) : Option (Str × Str) :=
  if s.head? == some '{' && (s.drop 1).head? == some '{' && (s.drop 2).head? == some '>' then
    let r1 := (s.drop 3).dropWhile pyWsChar
    let nm := r1.takeWhile refNameChar
    let r2 := (r1.dropWhile refNameChar).dropWhile pyWsChar
    if nm.isEmpty then none
    else if r2.head? == some '}' && (r2.drop 1).head? == some '}' then some (nm, r2.drop 2)
    else none
  else none

/-- `TemplateEngine._render_partials`, with explicit fuel: `none` models the
unbounded recursion (Python `RecursionError`) the source exhibits on cyclic
partials.  Each scanning step and each recursive expansion spends one fuel. -/
def render_partials_aux : Nat → TemplateEngine → Bool → Str → Option Str
  | 0, _, _, _ => none
  | _ + 1, _, _, [] => some []
  | f + 1, e, ud, c :: cs =>
    match matchPartialRef (c :: cs) with
    | some (nm, rest) =>
      let pc := load_partial e nm ud
      match (if pc.isEmpty then some (partial_not_found nm)
             else render_partials_aux f e ud pc) with
      | none => none
      | some rep =>
        match render_partials_aux f e ud rest with
        | none => none
        | some tail => some (rep ++ tail)
    | none =>
      match render_partials_aux f e ud cs with
      | none => none
      | some tail => some (c :: tail)

/-- Matcher for the variable pattern `\x7b\x7b\s*([^\s\x7d]+)\s*\x7d\x7d` at
the start of the string. -/
def matchVarRef (s : Str) : Option (Str × Str) :=
  if s.head? == some '{' && (s.drop 1).head? == some '{' then
    let r1 := (s.drop 2).dropWhile pyWsChar
    let nm := r1.takeWhile refNameChar
    let r2 := (r1.dropWhile refNameChar).dropWhile pyWsChar
    if nm.isEmpty then none
    else if r2.head? == some '}' && (r2.drop 1).head? == some '}' then some (nm, r2.drop 2)
    else none
  else none

/-- The variable-substitution pass of `render` / `render_string`:
`context.get(var_name, "\x7b\x7b var_name \x7d\x7d")` per match. -/
def sub_vars_aux : Nat → List (Str × Str) → Str → Str
  | 0, _, s => s
  | _ + 1, _, [] => []
  | f + 1, ctx, c :: cs =>
    match matchVarRef (c :: cs) with
    | some (nm, rest) =>
      (match lookupStr ctx nm with
       | some v => v
       | none => str "\x7b\x7b " ++ nm ++ str " \x7d\x7d") ++ sub_vars_aux f ctx rest
    | none => c :: sub_vars_aux f ctx cs

def sub_vars (ctx : List (Str × Str)) (s : Str) : Str :=
  sub_vars_aux (s.length + 1) ctx s

/-- `TemplateEngine.render`. -/
def render (fuel : Nat) (e : TemplateEngine) (template_name : Str)
    (context : List (Str × Str)) (use_defaults : Bool) : Option Str :=
  let t := load_template e template_name use_defaults
  if t.isEmpty then some (template_not_found template_name)
  else
    match render_partials_aux fuel e use_defaults t with
    | none => none
    | some t2 => some (sub_vars context t2)

/-- `TemplateEngine.render_string`. -/
def render_string (fuel : Nat) (e : TemplateEngine) (template_string : Str)
    (context : List (Str × Str)) (use_defaults : Bool) : Option Str :=
  match render_partials_aux fuel e use_defaults template_string with
  | none => none
  | some t2 => some (sub_vars context t2)

/-- `TemplateEngine.render_with_defaults`: delegates to `render` with
`use_defaults=True`. -/
def render_with_defaults (fuel : Nat) (e : TemplateEngine) (template_name : Str)
    (context : List (Str × Str)) : Option Str :=
  render fuel e template_name context true

example : render_string 20 ⟨[], []⟩ (str "\x7b\x7b x \x7d\x7d") [(str "x", str "v")] true = some (str "v") := by rfl

example : render_string 20 ⟨[], []⟩ (str "\x7b\x7b x \x7d\x7d") [] true = some (str "\x7b\x7b x \x7d\x7d") := by rfl

/-! ## Markdown / escaping subsystem (`tml_to_site.py`) -/

/-- One character of `html.escape(text, quote=True)`. -/
def escChar (c : Char) : Str :=
  if c == '&' then str "&amp;"
  else if c == '<' then str "&lt;"
  else if c == '>' then str "&gt;"
  else if c == '"' then str "&quot;"
  else if c == '\'' then str "&#x27;"
  else [c]

/-- `escape_html` from `tml_to_site.py` (characterwise HTML escaping). -/
def escape_html (s : Str) : Str := s.flatMap escChar

/-- ASCII model of the regex class `\w`. -/
def isWordChar (c : Char) : Bool := c.isAlphanum || c == '_'

/-- Split at the first occurrence of a triple backtick (the lazy `(.*?)` of
the fence regex): body before it, rest after it. -/
def splitFence : Str → Option (Str × Str)
  | '`' :: '`' :: '`' :: rest => some ([], rest)
  | c :: cs => (splitFence cs).map (fun p => (c :: p.1, p.2))
  | [] => none

/-- Matcher for the fenced-code-block regex at the start of the string:
triple backtick, optional greedy word run, a newline, then the lazily
matched body up to the next triple backtick. -/
def matchFence : Str → Option (Str × Str × Str)
  | '`' :: '`' :: '`' :: rest =>
    let lang := rest.takeWhile isWordChar
    match rest.dropWhile isWordChar with
    | '\n' :: body =>
      match splitFence body with
      | some (code, rest2) => some (lang, code, rest2)
      | none => none
    | _ => none
  | _ => none

def digitChar (d : Nat) : Char :=
  if d == 0 then '0' else if d == 1 then '1' else if d == 2 then '2'
  else if d == 3 then '3' else if d == 4 then '4' else if d == 5 then '5'
  else if d == 6 then '6' else if d == 7 then '7' else if d == 8 then '8' else '9'

def natDigits_aux : Nat → Nat → Str
  | 0, _ => []
  | f + 1, n => if n < 10 then [digitChar n] else natDigits_aux f (n / 10) ++ [digitChar (n % 10)]

/-- Decimal representation of a natural number. -/
def natDigits (n : Nat) : Str := natDigits_aux (n + 1) n

/-- `"___CODE_BLOCK_{}___".format(idx)`. -/
def code_block_placeholder (i : Nat) : Str :=
  str "___CODE_BLOCK_" ++ natDigits i ++ str "___"

/-- Code-block extraction pass of `safe_markdown`: replaces each fenced block
with a numbered placeholder and appends `(lang, escape_html code)` to the
accumulator, in match order. -/
def extract_code_blocks_aux : Nat → Str → List (Str × Str) → Str × List (Str × Str)
  | 0, s, acc => (s, acc)
  | _ + 1, [], acc => ([], acc)
  | f + 1, c :: cs, acc =>
    match matchFence (c :: cs) with
    | some (lang, code, rest) =>
      let ph := code_block_placeholder acc.length
      let out := extract_code_blocks_aux f rest (acc ++ [(lang, escape_html code)])
      (ph ++ out.1, out.2)
    | none =>
      let out := extract_code_blocks_aux f cs acc
      (c :: out.1, out.2)

/-- Python `str.replace` (leftmost, non-overlapping; only used with a
non-empty pattern in the source). -/
def pyReplace_aux : Nat → Str → Str → Str → Str
  | 0, s, _, _ => s
  | _ + 1, [], _, _ => []
  | f + 1, c :: cs, old, new =>
    if old.isPrefixOf (c :: cs) then new ++ pyReplace_aux f ((c :: cs).drop old.length) old new
    else c :: pyReplace_aux f cs old new

def pyReplace (s old new : Str) : Str := pyReplace_aux (s.length + 1) s old new

/-- The placeholder-restoring loop of `safe_markdown`
(`md.replace(escape_html(ph), ph)` for each block index below `n`; the
escaped placeholder equals the placeholder, so each pass is the identity,
proved below). -/
def restore_placeholders : Str → Nat → Str
  | t, 0 => t
  | t, n + 1 =>
    pyReplace (restore_placeholders t n)
      (escape_html (code_block_placeholder n)) (code_block_placeholder n)

/-- Matcher for the bold regex `\*\*([^*]+)\*\*` at the start of the string. -/
def matchBold (s : Str) : Option (Str × Str) :=
  if s.head? == some '*' && (s.drop 1).head? == some '*' then
    let rest := s.drop 2
    let content := rest.takeWhile (fun c => !(c == '*'))
    let r := rest.dropWhile (fun c => !(c == '*'))
    if content.isEmpty then none
    else if r.head? == some '*' && (r.drop 1).head? == some '*' then some (content, r.drop 2)
    else none
  else none

def boldSub_aux : Nat → Str → Str
  | 0, s => s
  | _ + 1, [] => []
  | f + 1, c :: cs =>
    match matchBold (c :: cs) with
    | some (content, rest) => str "<strong>" ++ content ++ str "</strong>" ++ boldSub_aux f rest
    | none => c :: boldSub_aux f cs

/-- The bold substitution pass. -/
def boldSub (s : Str) : Str := boldSub_aux (s.length + 1) s

/-- Matcher for the italic regex `(?<!\*)\*([^*\n]+)\*(?!\*)`; `prev` is the
character before the current position (for the lookbehind). -/
def matchItalic (prev : Option Char) (s : Str) : Option (Str × Str) :=
  if s.head? == some '*' && !(prev == some '*') then
    let rest := s.drop 1
    let content := rest.takeWhile (fun c => !(c == '*') && !(c == '\n'))
    let r := rest.dropWhile (fun c => !(c == '*') && !(c == '\n'))
    if content.isEmpty then none
    else if r.head? == some '*' && !((r.drop 1).head? == some '*') then some (content, r.drop 1)
    else none
  else none

def italicSub_aux : Nat → Option Char → Str → Str
  | 0, _, s => s
  | _ + 1, _, [] => []
  | f + 1, prev, c :: cs =>
    match matchItalic prev (c :: cs) with
    | some (content, rest) => str "<em>" ++ content ++ str "</em>" ++ italicSub_aux f (some '*') rest
    | none => c :: italicSub_aux f (some c) cs

/-- The italic substitution pass. -/
def italicSub (s : Str) : Str := italicSub_aux (s.length + 1) none s

/-- Matcher for the inline-code regex `` `([^`]+)` `` at the start. -/
def matchTick (s : Str) : Option (Str × Str) :=
  if s.head? == some '`' then
    let rest := s.drop 1
    let content := rest.takeWhile (fun c => !(c == '`'))
    let r := rest.dropWhile (fun c => !(c == '`'))
    if content.isEmpty then none
    else if r.head? == some '`' then some (content, r.drop 1)
    else none
  else none

def tickSub_aux : Nat → Str → Str
  | 0, s => s
  | _ + 1, [] => []
  | f + 1, c :: cs =>
    match matchTick (c :: cs) with
    | some (content, rest) => str "<code>" ++ content ++ str "</code>" ++ tickSub_aux f rest
    | none => c :: tickSub_aux f cs

/-- The inline-code substitution pass (applied per line). -/
def tickSub (s : Str) : Str := tickSub_aux (s.length + 1) s

/-- Line boundaries of Python `str.splitlines`. -/
def isLineBoundary (c : Char) : Bool :=
  (c == '\n') || (c == '\r') || (c == '\x0b') || (c == '\x0c') || (c == '\x1c') ||
  (c == '\x1d') || (c == '\x1e') || (c == '\x85') || (c == '\u2028') || (c == '\u2029')

def pySplitlines_aux : Nat → Str → List Str
  | 0, _ => []
  | _ + 1, [] => []
  | f + 1, s =>
    let line := s.takeWhile (fun c => !(isLineBoundary c))
    let rest := s.dropWhile (fun c => !(isLineBoundary c))
    if rest.isEmpty then [line]
    else if rest.head? == some '\r' && (rest.drop 1).head? == some '\n' then
      line :: pySplitlines_aux f (rest.drop 2)
    else line :: pySplitlines_aux f (rest.drop 1)

/-- Python `str.splitlines`. -/
def pySplitlines (s : Str) : List Str := pySplitlines_aux (s.length + 1) s

def digitsToNat (ds : Str) : Nat := ds.foldl (fun a c => a * 10 + (c.toNat - 48)) 0

/-- `re.match(r"___CODE_BLOCK_(\d+)___", s)`: anchored at the start, trailing
characters permitted; returns the numeric index. -/
def matchPlaceholderLine (s : Str) : Option Nat :=
  if (str "___CODE_BLOCK_").isPrefixOf s then
    let rest := s.drop 14
    let digits := rest.takeWhile Char.isDigit
    if digits.isEmpty then none
    else if (str "___").isPrefixOf (rest.dropWhile Char.isDigit) then
      some (digitsToNat digits)
    else none
  else none

/-- The per-line classification of `safe_markdown` (placeholder lines,
headings, list items, blank lines, paragraphs).  `none` models the
`IndexError` raised when a placeholder index is out of range. -/
def classifyLine (blocks : List (Str × Str)) (line : Str) : Option Str :=
  let s := pyStrip pyWsChar line
  match matchPlaceholderLine s with
  | some idx =>
    match blocks[idx]? with
    | some lc => some (str "<pre><code class=\"language-" ++ escape_html lc.1 ++ str "\">" ++
                       pyStrip pyWsChar lc.2 ++ str "</code></pre>")
    | none => none
  | none =>
    if (str "### ").isPrefixOf s then some (str "<h3>" ++ s.drop 4 ++ str "</h3>")
    else if (str "## ").isPrefixOf s then some (str "<h2>" ++ s.drop 3 ++ str "</h2>")
    else if (str "# ").isPrefixOf s then some (str "<h1>" ++ s.drop 2 ++ str "</h1>")
    else if (str "- ").isPrefixOf s then some (str "<li>" ++ s.drop 2 ++ str "</li>")
    else if s.isEmpty then some []
    else some (str "<p>" ++ s ++ str "</p>")

def lineStage (blocks : List (Str × Str)) : List Str → Option (List Str)
  | [] => some []
  | l :: rest =>
    match classifyLine blocks l with
    | none => none
    | some c =>
      match lineStage blocks rest with
      | none => none
      | some r => some (c :: r)

/-- The inline-code pass runs only on paragraph, list and heading lines. -/
def inlineCodeLine (l : Str) : Str :=
  if (str "<p>").isPrefixOf l || (str "<li>").isPrefixOf l || (str "<h").isPrefixOf l
  then tickSub l else l

/-- The `<ul>` wrapping fold of `safe_markdown`. -/
def ulWrap_aux : Bool → List Str → List Str
  | inUl, [] => if inUl then [str "</ul>"] else []
  | inUl, l :: rest =>
    if (str "<li>").isPrefixOf l then
      if inUl then l :: ulWrap_aux true rest
      else str "<ul>" :: l :: ulWrap_aux true rest
    else
      if inUl then str "</ul>" :: l :: ulWrap_aux false rest
      else l :: ulWrap_aux false rest

def ulWrap (ls : List Str) : List Str := ulWrap_aux false ls

def joinNL : List Str → Str
  | [] => []
  | [l] => l
  | l :: rest => l ++ '\n' :: joinNL rest

/-- `safe_markdown` from `tml_to_site.py`; `none` models the uncaught
`IndexError` on a stray placeholder token with an out-of-range index. -/
def safe_markdown (md : Str) : Option Str :=
  if md.isEmpty then some [] else
  let md1 := pyStrip pyWsChar md
  let ex := extract_code_blocks_aux (md1.length + 1) md1 []
  let esc := escape_html ex.1
  let rst := restore_placeholders esc ex.2.length
  let b := boldSub rst
  let it := italicSub b
  match lineStage ex.2 (pySplitlines it) with
  | none => none
  | some ls => some (joinNL (ulWrap (ls.map inlineCodeLine)))

/-! ## `safe_filename` -/

/-- The slug character class `[a-zA-Z0-9_-]` (the regex ranges are ASCII). -/
def isSlugChar (c : Char) : Bool := c.isAlphanum || c == '_' || c == '-'

/-- `re.sub(r"[^a-zA-Z0-9_-]+", "-", s)`. -/
def dashSub_aux : Nat → Str → Str
  | 0, s => s
  | _ + 1, [] => []
  | f + 1, c :: cs =>
    if isSlugChar c then c :: dashSub_aux f cs
    else '-' :: dashSub_aux f ((c :: cs).dropWhile (fun d => !(isSlugChar d)))

/-- `re.sub(r"-+", "-", s)`. -/
def collapseDash_aux : Nat → Str → Str
  | 0, s => s
  | _ + 1, [] => []
  | f + 1, '-' :: cs => '-' :: collapseDash_aux f (cs.dropWhile (fun d => d == '-'))
  | f + 1, c :: cs => c :: collapseDash_aux f cs

/-- ASCII model of `str.lower()` (`Char.toLower` lowercases exactly `A`-`Z`). -/
def pyLower (s : Str) : Str := s.map Char.toLower

/-- `safe_filename` from `tml_to_site.py`. -/
def safe_filename (name : Str) : Str :=
  let n0 := pyLower (pyStrip pyWsChar name)
  let n1 := dashSub_aux (n0.length + 1) n0
  let n2 := collapseDash_aux (n1.length + 1) n1
  let n3 := pyStrip (fun c => c == '-') n2
  if n3.isEmpty then str "lesson" else n3

/-! ## TML parser (`parse_tml` and helpers)

The XML tree handed to the parser is modelled by `XElem`.  `text` merges
Python's `None` and `""` (every read site applies `or ""`).  Attribute order
models document order (XML attributes have unique names). -/

structure XElem where
  tag : Str
  attrs : List (Str × Str)
  text : Str
  children : List XElem

def findall (x : XElem) (t : Str) : List XElem :=
  x.children.filter (fun c => c.tag == t)

def attrGetD (x : XElem) (k : Str) (d : Str) : Str :=
  (lookupStr x.attrs k).getD d

/-- `(element.findtext("./t") or "")`. -/
def findtext_or_empty (x : XElem) (t : Str) : Str :=
  match x.children.find? (fun c => c.tag == t) with
  | some c => c.text
  | none => []

/-- `(element.findtext("./t") or "").strip()`. -/
def ftStrip (x : XElem) (t : Str) : Str := pyStrip pyWsChar (findtext_or_empty x t)

/-- Python `int(s)` for a plain optionally-signed decimal string (underscore
separators and non-ASCII digits are out of modelled scope). -/
def digitsOnlyToNat (ds : Str) : Option Nat :=
  if ds.isEmpty then none
  else if ds.all Char.isDigit then some (digitsToNat ds) else none

def pyInt (s : Str) : Option Int :=
  match pyStrip pyWsChar s with
  | '+' :: ds => (digitsOnlyToNat ds).map (fun n => (n : Int))
  | '-' :: ds => (digitsOnlyToNat ds).map (fun n => -(n : Int))
  | ds => (digitsOnlyToNat ds).map (fun n => (n : Int))

/-- Exponent part of a Python float literal. -/
def pyFloatExp (base : Rat) : Str → Option Rat
  | [] => some base
  | 'e' :: r =>
    (match r with
     | '+' :: q => (digitsOnlyToNat q).map (fun n => base * 10 ^ n)
     | '-' :: q => (digitsOnlyToNat q).map (fun n => base / 10 ^ n)
     | q => (digitsOnlyToNat q).map (fun n => base * 10 ^ n))
  | 'E' :: r =>
    (match r with
     | '+' :: q => (digitsOnlyToNat q).map (fun n => base * 10 ^ n)
     | '-' :: q => (digitsOnlyToNat q).map (fun n => base / 10 ^ n)
     | q => (digitsOnlyToNat q).map (fun n => base * 10 ^ n))
  | _ => none

/-- Python `float(s)` for decimal literals, modelled with exact rational
values (the source only truncates these to ints or compares them, so binary
rounding is immaterial to the claims; `inf`/`nan`/underscores are out of
modelled scope). -/
def pyFloat (s : Str) : Option Rat :=
  let t := pyStrip pyWsChar s
  let sgn : Rat := if t.head? == some '-' then -1 else 1
  let t1 := match t with
    | '+' :: r => r
    | '-' :: r => r
    | r => r
  let ipart := t1.takeWhile Char.isDigit
  let r2 := t1.dropWhile Char.isDigit
  match r2 with
  | '.' :: r3 =>
    let fpart := r3.takeWhile Char.isDigit
    let r4 := r3.dropWhile Char.isDigit
    if ipart.isEmpty && fpart.isEmpty then none
    else pyFloatExp (sgn * ((digitsToNat ipart : Rat) + (digitsToNat fpart : Rat) / 10 ^ fpart.length)) r4
  | r3 =>
    if ipart.isEmpty then none
    else pyFloatExp (sgn * (digitsToNat ipart : Rat)) r3

/-- `int(x)` on a float: truncation toward zero. -/
def ratTruncInt (q : Rat) : Int := if 0 ≤ q then q.floor else -((-q).floor)

structure TContent where
  format : Str
  lang : Str
  value : Str

inductive QData where
  | mcqMsq (stem : Str) (choices : List (Str × Bool))
  | truefalse (statement : Str) (answer : Str)
  | shortLong (prompt : Str) (solution : Str)
  | code (prompt lang starter tests solution : Str)
  | matching (pairs : List (Str × Str))
  | ordering (items : List Str)
  | raw (node : XElem)

structure TQuestion where
  type : Str
  points : Rat
  data : QData

structure TAssessment where
  id : Str
  type : Str
  passScore : Int
  questions : List TQuestion

structure TActivity where
  id : Str
  type : Str
  est : Str
  instructions : Str
  expected : Str

structure TLesson where
  id : Str
  title : Str
  duration : Str
  content : List TContent
  activities : List TActivity
  assessments : List TAssessment
  module_title : Str

structure TModule where
  id : Str
  title : Str
  order : Int
  lessons : List TLesson

structure TCourse where
  id : Option Str
  title : Str
  level : Str
  duration : Str
  objectives : List Str
  modules : List TModule

/-- Parse errors: `tml` is a `TMLParseError` carrying its message, `py` any
other uncaught Python exception (e.g. `ValueError` from `int`/`float`). -/
inductive PErr where
  | tml (msg : Str)
  | py (msg : Str)

def joinComma : List Str → Str
  | [] => []
  | [k] => k
  | k :: rest => k ++ str ", " ++ joinComma rest

/-- `get_required_attr` from `tml_to_site.py`, including the exact message. -/
def get_required_attr (element : XElem) (attr_name : Str) (element_name : Str)
    (element_id : Str) : Except PErr Str :=
  match lookupStr element.attrs attr_name with
  | some v => .ok v
  | none =>
    let element_type := if element_name.isEmpty then element.tag else element_name
    let element_identifier :=
      if element_id.isEmpty then ([] : Str) else str " with id '" ++ element_id ++ str "'"
    let available_attrs :=
      if element.attrs.isEmpty then str "none" else joinComma (element.attrs.map Prod.fst)
    let shown := if available_attrs.isEmpty then str "none" else available_attrs
    .error (.tml (str "Missing required attribute '" ++ attr_name ++ str "' on <" ++
      element_type ++ str "> element" ++ element_identifier ++
      str ".\nAvailable attributes: " ++ shown ++
      str "\nPlease add the '" ++ attr_name ++ str "' attribute to this element."))

def mapExcept {α β : Type} (f : α → Except PErr β) : List α → Except PErr (List β)
  | [] => .ok []
  | a :: rest =>
    match f a with
    | .error e => .error e
    | .ok b =>
      match mapExcept f rest with
      | .error e => .error e
      | .ok bs => .ok (b :: bs)

def parse_content (c : XElem) : TContent :=
  ⟨attrGetD c (str "format") (str "markdown"), attrGetD c (str "lang") [],
   pyStrip pyWsChar c.text⟩

def parse_activity (a : XElem) : TActivity :=
  ⟨attrGetD a (str "id") [], attrGetD a (str "type") [], attrGetD a (str "est") [],
   ftStrip a (str "instructions"), ftStrip a (str "expected")⟩

def parse_choice (ch : XElem) : Str × Bool :=
  (pyStrip pyWsChar ch.text,
   pyLower (attrGetD ch (str "correct") (str "false")) == str "true")

/-- The per-question branch of `parse_tml` (dispatch on the `type` attribute;
the unrecognized-type fallback retains the raw node, modelling
`ET.tostring(q)`). -/
def parse_question (q : XElem) : Except PErr TQuestion :=
  let qtype := attrGetD q (str "type") (str "mcq")
  match pyFloat (attrGetD q (str "points") (str "1")) with
  | none => .error (.py (str "ValueError: could not convert string to float"))
  | some points =>
    let data :=
      if qtype == str "mcq" || qtype == str "msq" then
        QData.mcqMsq (ftStrip q (str "stem")) ((findall q (str "choice")).map parse_choice)
      else if qtype == str "truefalse" then
        QData.truefalse (ftStrip q (str "statement"))
          (match (findall q (str "answer")).head? with
           | some ael => pyLower (attrGetD ael (str "value") (str "false"))
           | none => str "false")
      else if qtype == str "short" || qtype == str "long" then
        QData.shortLong (ftStrip q (str "prompt")) (ftStrip q (str "solution"))
      else if qtype == str "code" then
        QData.code (ftStrip q (str "prompt")) (ftStrip q (str "lang"))
          (ftStrip q (str "starter")) (ftStrip q (str "tests")) (ftStrip q (str "solution"))
      else if qtype == str "matching" then
        QData.matching ((findall q (str "pair")).map
          (fun p => (ftStrip p (str "left"), ftStrip p (str "right"))))
      else if qtype == str "ordering" then
        QData.ordering (((findall q (str "item")).map
          (fun it => pyStrip pyWsChar it.text)).filter (fun t => !t.isEmpty))
      else QData.raw q
    .ok ⟨qtype, points, data⟩

def parse_assessment (asmt : XElem) : Except PErr TAssessment :=
  let aid := attrGetD asmt (str "id") []
  let atype := attrGetD asmt (str "type") (str "quiz")
  let psRaw := attrGetD asmt (str "passScore") (str "0")
  let psStr := if psRaw.isEmpty then str "0" else psRaw
  match pyFloat psStr with
  | none => .error (.py (str "ValueError: could not convert string to float"))
  | some ps =>
    match mapExcept parse_question (findall asmt (str "question")) with
    | .error e => .error e
    | .ok qs => .ok ⟨aid, atype, ratTruncInt ps, qs⟩

/-- One `<lesson>`: the missing-`title` error is wrapped with the lesson id
(or `(no id)`) and the owning module's title, exactly as in the source. -/
def parse_lesson (mtitle : Str) (l : XElem) : Except PErr TLesson :=
  let lid := attrGetD l (str "id") []
  match get_required_attr l (str "title") (str "lesson") lid with
  | .error e =>
    (match e with
     | .tml msg => .error (.tml (str "Error in lesson " ++
        (if lid.isEmpty then str "(no id)" else lid) ++ str " of module '" ++ mtitle ++
        str "': " ++ msg))
     | e' => .error e')
  | .ok ltitle =>
    let lduration := attrGetD l (str "duration") []
    match mapExcept parse_assessment (findall l (str "assessment")) with
    | .error e => .error e
    | .ok asmts =>
      .ok ⟨lid, ltitle, lduration, (findall l (str "content")).map parse_content,
           (findall l (str "activity")).map parse_activity, asmts, mtitle⟩

def parse_module (m : XElem) : Except PErr TModule :=
  let mid := attrGetD m (str "id") []
  match get_required_attr m (str "title") (str "module") mid with
  | .error e =>
    (match e with
     | .tml msg => .error (.tml (str "Error in module " ++
        (if mid.isEmpty then str "(no id)" else mid) ++ str ": " ++ msg))
     | e' => .error e')
  | .ok mtitle =>
    let orderRaw := attrGetD m (str "order") (str "0")
    let orderStr := if orderRaw.isEmpty then str "0" else orderRaw
    match pyInt orderStr with
    | none => .error (.py (str "ValueError: invalid literal for int() with base 10"))
    | some ord =>
      match mapExcept (parse_lesson mtitle) (findall m (str "lesson")) with
      | .error e => .error e
      | .ok lessons => .ok ⟨mid, mtitle, ord, lessons⟩

/-- The modules of the document, in document order (the state of the
`modules` list right before `modules.sort(key=lambda m: m.order)`). -/
def parse_modules (root : XElem) : Except PErr (List TModule) :=
  mapExcept parse_module (findall root (str "module"))

/-- Stable insertion used to model Python's stable `list.sort`: the new
element goes after every element whose key is less than or equal. -/
def insertByOrder (x : TModule) : List TModule → List TModule
  | [] => [x]
  | y :: rest => if y.order ≤ x.order then y :: insertByOrder x rest else x :: y :: rest

/-- `modules.sort(key=lambda m: m.order)`: stable ascending sort. -/
def sortByOrder (l : List TModule) : List TModule :=
  l.foldl (fun acc x => insertByOrder x acc) []

/-- `parse_tml` on an already-parsed XML tree (file IO and the optional XSD
validation step are external collaborators; a skipped validation proceeds). -/
def parse_tml (root : XElem) : Except PErr TCourse :=
  let cid := lookupStr root.attrs (str "id")
  let title := attrGetD root (str "title") []
  let level := attrGetD root (str "level") []
  let duration := attrGetD root (str "duration") []
  let objectives := ((findall root (str "objective")).map
    (fun o => pyStrip pyWsChar o.text)).filter (fun t => !t.isEmpty)
  match parse_modules root with
  | .error e => .error e
  | .ok mods => .ok ⟨cid, title, level, duration, objectives, sortByOrder mods⟩

/-! ## Projections of `render_course` used by the claims -/

/-- `total_lessons = sum(len(m.lessons) for m in course.modules)`. -/
def total_lessons (c : TCourse) : Nat :=
  (c.modules.map (fun m => m.lessons.length)).sum

/-- The sequence of lesson-page filenames written by `render_course`, in
write order: one `f"{safe_filename(l.title)}.html"` per lesson of each
module (the loop at the end of `render_course`). -/
def lesson_write_paths (c : TCourse) : List Str :=
  c.modules.flatMap (fun m => m.lessons.map (fun l => safe_filename l.title ++ str ".html"))

/-! ## Auxiliary predicates and concrete fixtures used by the theorems -/

/-- Characters of a well-formed partial/variable name: no whitespace and no
braces (so they are matched entirely by the `[^\s\x7d]+` capture and cannot
form new `\x7b\x7b` digraphs in surrounding text). -/
def goodNameChar (c : Char) : Bool := !(pyWsChar c) && !(c == '{') && !(c == '}')

def goodName (p : Str) : Bool := !p.isEmpty && p.all goodNameChar

/-- `noDB s` holds when `s` contains no two adjacent opening braces, hence no
variable-pattern match anywhere in `s`. -/
def noDB : Str → Bool
  | [] => true
  | c :: cs => (!(c == '{') || !(cs.head? == some '{')) && noDB cs

/-- An engine with no template directory. -/
def eEmpty : TemplateEngine := ⟨[], []⟩

/-- An engine whose partial `a` refers to itself: `partials/a.html`
containing `\x7b\x7b> a \x7d\x7d`. -/
def eCyc : TemplateEngine := ⟨[], [(str "a.html", str "\x7b\x7b> a \x7d\x7d")]⟩

/-- An engine with nested partials `a → b → "Z"`. -/
def eNest : TemplateEngine :=
  ⟨[], [(str "a.html", str "\x7b\x7b> b \x7d\x7d"), (str "b.html", str "Z")]⟩

/-- An engine whose template `t.html` is exactly `\x7b\x7b x \x7d\x7d`. -/
def eC2 : TemplateEngine := ⟨[(str "t.html", str "\x7b\x7b x \x7d\x7d")], []⟩

/-- A course tree with one module and one lesson (attributes supplied by the
caller), used for the required-attribute claims. -/
def mk1root (mattrs lattrs : List (Str × Str)) : XElem :=
  ⟨str "course", [], [], [⟨str "module", mattrs, [], [⟨str "lesson", lattrs, [], []⟩]⟩]⟩

/-- A parsed document with two lessons whose distinct titles slugify to the
same filename. -/
def c4root : XElem :=
  ⟨str "course", [(str "id", str "c1"), (str "title", str "C")], [],
   [⟨str "module", [(str "title", str "M")], [],
     [⟨str "lesson", [(str "title", str "Intro")], [], []⟩,
      ⟨str "lesson", [(str "title", str "Intro!")], [], []⟩]⟩]⟩

def w7m1 : TModule := ⟨[], str "A", 2, []⟩

def w7m2 : TModule := ⟨[], str "B", 0, []⟩

/-- A document whose modules appear with orders `2` then `0` (the default). -/
def w7root : XElem :=
  ⟨str "course", [(str "title", str "C")], [],
   [⟨str "module", [(str "title", str "A"), (str "order", str "2")], [], []⟩,
    ⟨str "module", [(str "title", str "B")], [], []⟩]⟩

def w7c : TCourse := ⟨none, str "C", [], [], [], [w7m2, w7m1]⟩

def w7mods : List TModule := [w7m1, w7m2]

/-! ## The tag grammar of `safe_markdown` output

Every `<` in the output of `safe_markdown` opens one of a fixed set of tags;
`tagTails` lists the possible continuations after `<`.  `Tagged` is the
resulting grammar: a string of non-`<` characters and whole `'<' :: p`
units with `p ∈ tagTails`. -/

def tagTails : List Str :=
  [str "strong>", str "/strong>", str "em>", str "/em>",
   str "h1>", str "/h1>", str "h2>", str "/h2>", str "h3>", str "/h3>",
   str "p>", str "/p>", str "li>", str "/li>", str "ul>", str "/ul>",
   str "code", str "/code>", str "pre>", str "/pre>"]

inductive Tagged : Str → Prop
  | nil : Tagged []
  | chr {c : Char} {t : Str} : c ≠ '<' → Tagged t → Tagged (c :: t)
  | tag {p t : Str} : p ∈ tagTails → Tagged t → Tagged ('<' :: (p ++ t))

/-! ## Helper lemmas -/

theorem some_beq_some {α : Type} [BEq α] (a b : α) :
    ((some a : Option α) == some b) = (a == b) := rfl

theorem takeWhile_append_all {P : Char → Bool} {x : Str} (t : Str)
    (hx : ∀ c ∈ x, P c = true) : (x ++ t).takeWhile P = x ++ t.takeWhile P := by
  induction x with
  | nil => simp
  | cons c cs ih =>
    have hc : P c = true := hx c (by simp)
    simp [List.takeWhile_cons, hc, ih (fun d hd => hx d (by simp [hd]))]

theorem dropWhile_append_all {P : Char → Bool} {x : Str} (t : Str)
    (hx : ∀ c ∈ x, P c = true) : (x ++ t).dropWhile P = t.dropWhile P := by
  induction x with
  | nil => simp
  | cons c cs ih =>
    have hc : P c = true := hx c (by simp)
    simp [List.dropWhile_cons, hc, ih (fun d hd => hx d (by simp [hd]))]

theorem rpAux_cyc_none :
    ∀ f, render_partials_aux f eCyc true (str "\x7b\x7b> a \x7d\x7d") = none := by
  intro f
  induction f with
  | zero => rfl
  | succ k ih =>
    have step : render_partials_aux (k + 1) eCyc true (str "\x7b\x7b> a \x7d\x7d") =
        (match render_partials_aux k eCyc true (str "\x7b\x7b> a \x7d\x7d") with
         | none => none
         | some rep =>
           match render_partials_aux k eCyc true [] with
           | none => none
           | some tail => some (rep ++ tail)) := rfl
    rw [step, ih]

/-! ## Claim theorems (first group) -/

/-- C10: `render_with_defaults(templateName, context)` returns exactly the
same string as `render(templateName, context, use_defaults=True)` for every
template name, context, engine state and fuel: it is a pure delegation. -/
theorem c10_render_with_defaults_delegates :
    ∀ (f : Nat) (e : TemplateEngine) (n : Str) (ctx : List (Str × Str)),
      render_with_defaults f e n ctx = render f e n ctx true :=
  fun _ _ _ _ => rfl

/-- C9 counterexample: the compiled-in defaults dict has exactly seven
entries, not nine. -/
theorem c9_nine_defaults_counterexample :
    defaults_table.length = 7 ∧ defaults_table.length ≠ 9 :=
  ⟨rfl, by decide⟩

/-- C9 (amended): the engine ships exactly seven compiled-in defaults, keyed
by name — the base page wrapper, the index and lesson page stubs, and the
four partials header, footer, styles and scripts — each a non-empty static
string constant served unchanged by `get_default_template`. -/
theorem c9_seven_defaults :
    defaults_table.map Prod.fst =
      [str "base.html", str "index.html", str "lesson.html",
       str "partials/header.html", str "partials/footer.html",
       str "partials/styles.html", str "partials/scripts.html"] ∧
    defaults_table.length = 7 ∧
    defaults_table.map (fun nv => nv.2.isEmpty) =
      [false, false, false, false, false, false, false] ∧
    get_default_template (str "base.html") = default_base ∧
    get_default_template (str "partials/footer.html") = default_footer ∧
    get_default_template (str "partials/scripts.html") = default_scripts ∧
    get_default_template (str "nope.html") = [] :=
  ⟨rfl, rfl, rfl, rfl, rfl, rfl, rfl⟩

/-- C8: rendering the inline template `\x7b\x7b x \x7d\x7d` with context
`x ↦ "v"` yields `"v"`; with a context lacking `x` it yields the literal
text back unchanged, and rendering that result again with the same context
yields it again (idempotence). -/
theorem c8_round_trip :
    render_string 20 eEmpty (str "\x7b\x7b x \x7d\x7d") [(str "x", str "v")] true =
      some (str "v") ∧
    render_string 20 eEmpty (str "\x7b\x7b x \x7d\x7d") [] true =
      some (str "\x7b\x7b x \x7d\x7d") ∧
    (render_string 20 eEmpty (str "\x7b\x7b x \x7d\x7d") [] true).bind
      (fun s1 => render_string 20 eEmpty s1 [] true) = some (str "\x7b\x7b x \x7d\x7d") :=
  ⟨rfl, rfl, rfl⟩

/-- C1 counterexample: with the self-referential partial `a → \x7b\x7b> a \x7d\x7d`,
expansion does not stop after 10 passes, nor after 1000: there is no
bounded-pass early exit in `_render_partials`; the recursion only deepens
(`none` = the recursion has not produced a result within that depth,
i.e. Python's eventual `RecursionError`). -/
theorem c1_ten_pass_counterexample :
    render_partials_aux 10 eCyc true (str "\x7b\x7b> a \x7d\x7d") = none ∧
    render_partials_aux 1000 eCyc true (str "\x7b\x7b> a \x7d\x7d") = none :=
  ⟨rpAux_cyc_none 10, rpAux_cyc_none 1000⟩

/-- C1 (amended): partial expansion is recursive — a loaded partial's own
references are expanded before substitution into the parent (`a → b → "Z"`
fully resolves to `"Z"`) — but there is no fixed maximum number of passes:
on a cyclic partial the recursion never halts at any depth (in the source,
an uncaught `RecursionError` rather than a graceful stop). -/
theorem c1_recursive_unbounded :
    (∀ f, render_partials_aux f eCyc true (str "\x7b\x7b> a \x7d\x7d") = none) ∧
    render_partials_aux 10 eNest true (str "\x7b\x7b> a \x7d\x7d") = some (str "Z") :=
  ⟨rpAux_cyc_none, rfl⟩

/-- C4 counterexample: a parsed course with two lessons titled `Intro` and
`Intro!` has two lessons but only one distinct generated lesson filename
(`intro.html`), because both titles slugify identically and the second write
overwrites the first. -/
theorem c4_slug_collision_counterexample :
    (parse_tml c4root).map (fun c => ((lesson_write_paths c).dedup.length, total_lessons c)) =
      .ok (1, 2) ∧ (1 : Nat) ≠ 2 :=
  ⟨rfl, by decide⟩

/-- C4 (amended): for every course, the number of lesson-file writes
performed by `render_course` equals the total lesson count across all
modules; the number of distinct files can be smaller when two lesson titles
slugify to the same filename (later writes overwrite earlier ones). -/
theorem c4_lesson_write_count :
    ∀ c : TCourse, (lesson_write_paths c).length = total_lessons c := by
  intro c
  unfold lesson_write_paths total_lessons
  induction c.modules with
  | nil => rfl
  | cons m ms ih => simp [List.flatMap_cons, ih]

/-! ## Stable-sort lemmas for C7 -/

theorem mem_insertByOrder {x a : TModule} {l : List TModule} :
    a ∈ insertByOrder x l ↔ a = x ∨ a ∈ l := by
  induction l with
  | nil => simp [insertByOrder]
  | cons y rest ih =>
    by_cases h : y.order ≤ x.order
    · simp only [insertByOrder, if_pos h, List.mem_cons, ih]
      tauto
    · simp only [insertByOrder, if_neg h, List.mem_cons]

theorem insertByOrder_pairwise {x : TModule} {l : List TModule}
    (h : l.Pairwise (fun a b => a.order ≤ b.order)) :
    (insertByOrder x l).Pairwise (fun a b => a.order ≤ b.order) := by
  induction l with
  | nil => simp [insertByOrder]
  | cons y rest ih =>
    rcases List.pairwise_cons.mp h with ⟨hy, hrest⟩
    by_cases hle : y.order ≤ x.order
    · simp only [insertByOrder, if_pos hle]
      refine List.pairwise_cons.mpr ⟨?_, ih hrest⟩
      intro a ha
      rcases mem_insertByOrder.mp ha with rfl | ha'
      · exact hle
      · exact hy a ha'
    · simp only [insertByOrder, if_neg hle]
      refine List.pairwise_cons.mpr ⟨?_, h⟩
      intro a ha
      have hxy : x.order ≤ y.order := le_of_not_le hle
      rcases List.mem_cons.mp ha with rfl | ha'
      · exact hxy
      · exact le_trans hxy (hy a ha')

theorem insertByOrder_perm (x : TModule) (l : List TModule) :
    (insertByOrder x l).Perm (x :: l) := by
  induction l with
  | nil => simp [insertByOrder]
  | cons y rest ih =>
    by_cases h : y.order ≤ x.order
    · simp only [insertByOrder, if_pos h]
      exact List.Perm.trans (List.Perm.cons y ih) (List.Perm.swap x y rest)
    · simp only [insertByOrder, if_neg h]
      exact List.Perm.refl _

theorem filter_head_gt {k : Int} {y : TModule} {rest : List TModule}
    (h : (y :: rest).Pairwise (fun a b => a.order ≤ b.order)) (hk : k < y.order) :
    (y :: rest).filter (fun m => m.order == k) = [] := by
  rw [List.filter_eq_nil_iff]
  intro a ha
  rcases List.mem_cons.mp ha with rfl | ha'
  · simp only [beq_iff_eq]
    omega
  · have := (List.pairwise_cons.mp h).1 a ha'
    simp only [beq_iff_eq]
    omega

theorem filter_insertByOrder {k : Int} {x : TModule} {l : List TModule}
    (h : l.Pairwise (fun a b => a.order ≤ b.order)) :
    (insertByOrder x l).filter (fun m => m.order == k) =
      l.filter (fun m => m.order == k) ++ (if x.order == k then [x] else []) := by
  induction l with
  | nil =>
    by_cases hxk : (x.order == k) = true <;> simp [insertByOrder, List.filter, hxk]
  | cons y rest ih =>
    rcases List.pairwise_cons.mp h with ⟨hy, hrest⟩
    by_cases hle : y.order ≤ x.order
    · simp only [insertByOrder, if_pos hle, List.filter_cons]
      by_cases hyk : (y.order == k) = true
      · simp [hyk, ih hrest]
      · simp [hyk, ih hrest]
    · have hxy : x.order ≤ y.order := le_of_not_le hle
      by_cases hxk : (x.order == k) = true
      · have hk : k < y.order := by
          have : x.order = k := by simpa [beq_iff_eq] using hxk
          omega
        have hins : insertByOrder x (y :: rest) = x :: y :: rest := by
          simp [insertByOrder, if_neg hle]
        rw [hins, List.filter_cons_of_pos (by simpa using hxk), filter_head_gt h hk]
        simp [hxk]
      · have hins : insertByOrder x (y :: rest) = x :: y :: rest := by
          simp [insertByOrder, if_neg hle]
        rw [hins, List.filter_cons_of_neg (by simpa using hxk)]
        simp [hxk]

theorem sortFold_pairwise :
    ∀ (l acc : List TModule), acc.Pairwise (fun a b => a.order ≤ b.order) →
    (List.foldl (fun acc x => insertByOrder x acc) acc l).Pairwise
      (fun a b => a.order ≤ b.order) := by
  intro l
  induction l with
  | nil => intro acc h; simpa using h
  | cons x xs ih =>
    intro acc h
    simp only [List.foldl_cons]
    exact ih _ (insertByOrder_pairwise h)

theorem sortFold_filter {k : Int} :
    ∀ (l acc : List TModule), acc.Pairwise (fun a b => a.order ≤ b.order) →
    (List.foldl (fun acc x => insertByOrder x acc) acc l).filter (fun m => m.order == k) =
      acc.filter (fun m => m.order == k) ++ l.filter (fun m => m.order == k) := by
  intro l
  induction l with
  | nil => intro acc h; simp
  | cons x xs ih =>
    intro acc h
    simp only [List.foldl_cons]
    rw [ih _ (insertByOrder_pairwise h), filter_insertByOrder h, List.filter_cons]
    by_cases hxk : (x.order == k) = true <;> simp [hxk, List.append_assoc]

theorem sortFold_perm :
    ∀ (l acc : List TModule),
    (List.foldl (fun acc x => insertByOrder x acc) acc l).Perm (acc ++ l) := by
  intro l
  induction l with
  | nil => intro acc; simp
  | cons x xs ih =>
    intro acc
    simp only [List.foldl_cons]
    exact ((ih _).trans (((insertByOrder_perm x acc).append_right xs).trans
      List.perm_middle.symm))

/-- C7: at the end of every successful parse, the course's modules are the
stable ascending sort by `order` of the document-order module list: sorted
ascending, a permutation of the document order, and within each `order`
value the document order is preserved (ties broken by document order). -/
theorem c7_modules_sorted (root : XElem) (c : TCourse) (mods : List TModule)
    (h1 : parse_tml root = .ok c) (h2 : parse_modules root = .ok mods) :
    c.modules.Pairwise (fun a b => a.order ≤ b.order) ∧
    (∀ k : Int, c.modules.filter (fun m => m.order == k) =
      mods.filter (fun m => m.order == k)) ∧
    c.modules.Perm mods := by
  have hc : c.modules = sortByOrder mods := by
    simp only [parse_tml, h2] at h1
    cases h1
    rfl
  rw [hc]
  refine ⟨sortFold_pairwise mods [] (by simp), fun k => ?_, ?_⟩
  · simpa using sortFold_filter mods [] (by simp)
  · simpa using sortFold_perm mods []

/-- C7 witness: the two-module document with orders `2` then `0` parses to
modules sorted `[0, 2]`, matching the general theorem at this input. -/
theorem c7_modules_sorted_witness :
    w7c.modules.Pairwise (fun a b => a.order ≤ b.order) ∧
    w7c.modules.filter (fun m => m.order == (2 : Int)) =
      w7mods.filter (fun m => m.order == (2 : Int)) ∧
    w7c.modules.Perm w7mods := by
  have h := c7_modules_sorted w7root w7c w7mods rfl rfl
  exact ⟨h.1, h.2.1 2, h.2.2⟩

/-- C6: parsing a document whose `<lesson>` lacks the required `title`
attribute fails with a `TMLParseError` whose message contains the lesson's id
(or `(no id)` when the id is empty/absent) and the parent module's title
(for every module id/title and lesson id, over the one-module one-lesson
document shape). -/
theorem c6_missing_lesson_title (mid mtitle lid : Str) :
    ∃ m, parse_tml (mk1root [(str "id", mid), (str "title", mtitle)] [(str "id", lid)]) =
        .error (.tml m) ∧
      (if lid.isEmpty then str "(no id)" else lid) <:+: m ∧ mtitle <:+: m := by
  refine ⟨str "Error in lesson " ++ (if lid.isEmpty then str "(no id)" else lid) ++
      str " of module '" ++ mtitle ++ str "': " ++
      (str "Missing required attribute '" ++ str "title" ++ str "' on <" ++ str "lesson" ++
       str "> element" ++
       (if lid.isEmpty then ([] : Str) else str " with id '" ++ lid ++ str "'") ++
       str ".\nAvailable attributes: " ++ str "id" ++ str "\nPlease add the '" ++
       str "title" ++ str "' attribute to this element."),
    ?heq, ?hid, ?hmt⟩
  case heq => rfl
  case hid =>
    refine ⟨str "Error in lesson ",
      str " of module '" ++ mtitle ++ str "': " ++
      (str "Missing required attribute '" ++ str "title" ++ str "' on <" ++ str "lesson" ++
       str "> element" ++
       (if lid.isEmpty then ([] : Str) else str " with id '" ++ lid ++ str "'") ++
       str ".\nAvailable attributes: " ++ str "id" ++ str "\nPlease add the '" ++
       str "title" ++ str "' attribute to this element."), ?_⟩
    simp [List.append_assoc]
  case hmt =>
    refine ⟨str "Error in lesson " ++ (if lid.isEmpty then str "(no id)" else lid) ++
      str " of module '",
      str "': " ++
      (str "Missing required attribute '" ++ str "title" ++ str "' on <" ++ str "lesson" ++
       str "> element" ++
       (if lid.isEmpty then ([] : Str) else str " with id '" ++ lid ++ str "'") ++
       str ".\nAvailable attributes: " ++ str "id" ++ str "\nPlease add the '" ++
       str "title" ++ str "' attribute to this element."), ?_⟩
    simp [List.append_assoc]

/-! ## Scanner lemmas for the render claims (C2, C5) -/

theorem goodNameChar_not_ws {c : Char} (h : goodNameChar c = true) : pyWsChar c = false := by
  simp only [goodNameChar, Bool.and_eq_true, Bool.not_eq_true'] at h
  exact h.1.1

theorem goodNameChar_not_lbrace {c : Char} (h : goodNameChar c = true) : (c == '{') = false := by
  simp only [goodNameChar, Bool.and_eq_true, Bool.not_eq_true'] at h
  exact h.1.2

theorem goodNameChar_ref {c : Char} (h : goodNameChar c = true) : refNameChar c = true := by
  simp only [goodNameChar, Bool.and_eq_true, Bool.not_eq_true'] at h
  simp only [refNameChar, Bool.and_eq_true, Bool.not_eq_true']
  exact ⟨h.1.1, h.2⟩

theorem goodName_parts {p : Str} (h : goodName p = true) :
    p ≠ [] ∧ ∀ c ∈ p, goodNameChar c = true := by
  simp only [goodName, Bool.and_eq_true, Bool.not_eq_true', List.all_eq_true] at h
  refine ⟨?_, h.2⟩
  intro hnil
  subst hnil
  simp at h

theorem matchPartialRef_cons_none {c : Char} (l : Str) (h : (c == '{') = false) :
    matchPartialRef (c :: l) = none := by
  unfold matchPartialRef
  rw [show ((c :: l).head? == some '{') = (c == '{') from rfl, h]
  simp

theorem matchVarRef_none_of {c : Char} (l : Str)
    (h : ((c == '{') && (l.head? == some '{')) = false) :
    matchVarRef (c :: l) = none := by
  unfold matchVarRef
  rw [show ((c :: l).head? == some '{') = (c == '{') from rfl,
      show (((c :: l).drop 1).head? == some '{') = (l.head? == some '{') from rfl]
  rcases Bool.and_eq_false_iff.mp h with h' | h' <;> simp [h']

theorem noDB_step {c : Char} {cs : Str} (h : noDB (c :: cs) = true) :
    ((c == '{') && (cs.head? == some '{')) = false ∧ noDB cs = true := by
  unfold noDB at h
  rw [Bool.and_eq_true] at h
  refine ⟨?_, h.2⟩
  have h1 := h.1
  cases hb : ((c == '{') && (cs.head? == some '{'))
  · rfl
  · rw [Bool.or_eq_true, Bool.not_eq_true', Bool.not_eq_true'] at h1
    rw [Bool.and_eq_true] at hb
    rcases h1 with h1 | h1
    · rw [hb.1] at h1
      cases h1
    · rw [hb.2] at h1
      cases h1

theorem subVars_aux_noDB (ctx : List (Str × Str)) :
    ∀ (f : Nat) (s : Str), noDB s = true → sub_vars_aux f ctx s = s := by
  intro f
  induction f with
  | zero => intro s _; rfl
  | succ k ih =>
    intro s hs
    cases s with
    | nil => rfl
    | cons c cs =>
      rcases noDB_step hs with ⟨h1, h2⟩
      show (match matchVarRef (c :: cs) with
            | some (nm, rest) =>
              (match lookupStr ctx nm with
               | some v => v
               | none => str "\x7b\x7b " ++ nm ++ str " \x7d\x7d") ++ sub_vars_aux k ctx rest
            | none => c :: sub_vars_aux k ctx cs) = c :: cs
      rw [matchVarRef_none_of cs h1, ih cs h2]

theorem subVars_noDB (ctx : List (Str × Str)) (s : Str) (h : noDB s = true) :
    sub_vars ctx s = s :=
  subVars_aux_noDB ctx _ s h

theorem noDB_of_no_brace : ∀ {s : Str}, (∀ c ∈ s, (c == '{') = false) → noDB s = true := by
  intro s
  induction s with
  | nil => intro _; rfl
  | cons c cs ih =>
    intro h
    unfold noDB
    rw [h c (by simp), ih (fun d hd => h d (by simp [hd]))]
    simp

theorem matchPartialRef_wholeref {p : Str} (hp : goodName p = true) :
    matchPartialRef ('{':: '{':: '>':: ' '::(p ++ (' ':: '}':: '}'::[]))) = some (p, []) := by
  obtain ⟨hne, hchars⟩ := goodName_parts hp
  obtain ⟨p0, p', rfl⟩ : ∃ p0 p', p = p0 :: p' := by
    cases p with
    | nil => exact absurd rfl hne
    | cons a l => exact ⟨a, l, rfl⟩
  have hws0 : pyWsChar p0 = false := goodNameChar_not_ws (hchars p0 (by simp))
  have hr0 : refNameChar p0 = true := goodNameChar_ref (hchars p0 (by simp))
  have hrp' : ∀ c ∈ p', refNameChar c = true := fun c hc =>
    goodNameChar_ref (hchars c (by simp [hc]))
  unfold matchPartialRef
  have er1 : List.dropWhile pyWsChar
      (List.drop 3 ('{':: '{':: '>':: ' '::((p0::p') ++ (' ':: '}':: '}'::[])))) =
      (p0::p') ++ (' ':: '}':: '}'::[]) := by
    show List.dropWhile pyWsChar (' '::((p0::p') ++ (' ':: '}':: '}'::[]))) = _
    rw [List.dropWhile_cons]
    simp [show pyWsChar ' ' = true from rfl, List.cons_append, List.dropWhile_cons, hws0]
  rw [er1]
  simp [takeWhile_append_all (' ':: '}':: '}'::[]) hrp',
    dropWhile_append_all (' ':: '}':: '}'::[]) hrp', hr0,
    show refNameChar ' ' = false from rfl, List.dropWhile_cons, List.takeWhile_cons,
    show pyWsChar ' ' = true from rfl, show pyWsChar '}' = false from rfl]

theorem matchVarRef_wholevar {x : Str} (hx : goodName x = true) :
    matchVarRef ('{':: '{':: ' '::(x ++ (' ':: '}':: '}'::[]))) = some (x, []) := by
  obtain ⟨hne, hchars⟩ := goodName_parts hx
  obtain ⟨p0, p', rfl⟩ : ∃ p0 p', x = p0 :: p' := by
    cases x with
    | nil => exact absurd rfl hne
    | cons a l => exact ⟨a, l, rfl⟩
  have hws0 : pyWsChar p0 = false := goodNameChar_not_ws (hchars p0 (by simp))
  have hr0 : refNameChar p0 = true := goodNameChar_ref (hchars p0 (by simp))
  have hrp' : ∀ c ∈ p', refNameChar c = true := fun c hc =>
    goodNameChar_ref (hchars c (by simp [hc]))
  unfold matchVarRef
  have er1 : List.dropWhile pyWsChar
      (List.drop 2 ('{':: '{':: ' '::((p0::p') ++ (' ':: '}':: '}'::[])))) =
      (p0::p') ++ (' ':: '}':: '}'::[]) := by
    show List.dropWhile pyWsChar (' '::((p0::p') ++ (' ':: '}':: '}'::[]))) = _
    rw [List.dropWhile_cons]
    simp [show pyWsChar ' ' = true from rfl, List.cons_append, List.dropWhile_cons, hws0]
  rw [er1]
  simp [takeWhile_append_all (' ':: '}':: '}'::[]) hrp',
    dropWhile_append_all (' ':: '}':: '}'::[]) hrp', hr0,
    show refNameChar ' ' = false from rfl, List.dropWhile_cons, List.takeWhile_cons,
    show pyWsChar ' ' = true from rfl, show pyWsChar '}' = false from rfl]

theorem rpAux_step_nomatch (f : Nat) (e : TemplateEngine) (ud : Bool) (c : Char) (cs : Str)
    (h : matchPartialRef (c :: cs) = none) :
    render_partials_aux (f + 1) e ud (c :: cs) =
      (render_partials_aux f e ud cs).map (fun r => c :: r) := by
  simp only [render_partials_aux, h]
  cases hr : render_partials_aux f e ud cs <;> rfl

theorem rpAux_open3 (e : TemplateEngine) (ud : Bool) (g : Nat) (rest : Str) :
    render_partials_aux (g + 3) e ud ('{':: '{':: ' '::rest) =
      (render_partials_aux g e ud rest).map (fun r => '{':: '{':: ' '::r) := by
  rw [rpAux_step_nomatch (g + 2) e ud '{' ('{':: ' '::rest) rfl,
      rpAux_step_nomatch (g + 1) e ud '{' (' '::rest) rfl,
      rpAux_step_nomatch g e ud ' ' rest rfl]
  cases hr : render_partials_aux g e ud rest <;> rfl

theorem rpAux_copy (e : TemplateEngine) (ud : Bool) {x : Str}
    (hx : ∀ c ∈ x, (c == '{') = false) :
    ∀ (f : Nat) (t : Str), render_partials_aux (x.length + f) e ud (x ++ t) =
      (render_partials_aux f e ud t).map (fun r => x ++ r) := by
  induction x with
  | nil =>
    intro f t
    cases hr : render_partials_aux f e ud t <;> simp [hr]
  | cons c x' ih =>
    intro f t
    have hlen : (c :: x').length + f = (x'.length + f) + 1 := by
      simp [List.length_cons]
      omega
    rw [List.cons_append, hlen,
      rpAux_step_nomatch _ e ud c _ (matchPartialRef_cons_none _ (hx c (by simp))),
      ih (fun d hd => hx d (by simp [hd])) f t]
    cases hr : render_partials_aux f e ud t <;> rfl

theorem rpAux_tail3 (e : TemplateEngine) (ud : Bool) (g : Nat) :
    render_partials_aux (g + 4) e ud (' ':: '}':: '}'::[]) = some (' ':: '}':: '}'::[]) := rfl

theorem subVars_aux_nil (n : Nat) (ctx : List (Str × Str)) : sub_vars_aux n ctx [] = [] := by
  cases n <;> rfl

theorem subVars_single {x v : Str} (ctx : List (Str × Str)) (hx : goodName x = true)
    (hctx : lookupStr ctx x = some v) :
    sub_vars ctx ('{':: '{':: ' '::(x ++ (' ':: '}':: '}'::[]))) = v := by
  unfold sub_vars
  simp only [sub_vars_aux, matchVarRef_wholevar hx, hctx, subVars_aux_nil, List.append_nil]

theorem rpAux_wholeref (e : TemplateEngine) (k : Nat) {p : Str} (hp : goodName p = true)
    (hmiss : load_partial e p true = []) :
    render_partials_aux (k + 2) e true ('{':: '{':: '>':: ' '::(p ++ (' ':: '}':: '}'::[]))) =
      some (partial_not_found p) := by
  simp only [render_partials_aux, matchPartialRef_wholeref hp, hmiss]
  simp [render_partials_aux]

theorem noDB_partial_not_found {p : Str} (hp : goodName p = true) :
    noDB (partial_not_found p) = true := by
  apply noDB_of_no_brace
  intro c hc
  unfold partial_not_found at hc
  rcases List.mem_append.mp hc with hc1 | hc2
  · rcases List.mem_append.mp hc1 with hc3 | hc4
    · exact (by decide : ∀ d ∈ str "<!-- Partial '", (d == '{') = false) c hc3
    · exact goodNameChar_not_lbrace ((goodName_parts hp).2 c hc4)
  · exact (by decide : ∀ d ∈ str "' not found -->", (d == '{') = false) c hc2

/-- C5: `render` never raises for a missing template or partial.  When the
template cannot be resolved (no file, no default) the result is the comment
`<!-- Template 'X' not found -->`; when a referenced partial cannot be
resolved, the reference is replaced by `<!-- Partial 'X' not found -->` and
rendering completes with that visible placeholder. -/
theorem c5_not_found_placeholders :
    (∀ (f : Nat) (e : TemplateEngine) (nm : Str) (ctx : List (Str × Str)),
       load_template e nm true = [] → render f e nm ctx true = some (template_not_found nm)) ∧
    (∀ (k : Nat) (e : TemplateEngine) (tname p : Str) (ctx : List (Str × Str)),
       goodName p = true → load_partial e p true = [] →
       lookupStr e.tfiles tname = some (str "\x7b\x7b> " ++ p ++ str " \x7d\x7d") →
       render (k + 2) e tname ctx true = some (partial_not_found p)) := by
  constructor
  · intro f e nm ctx h
    unfold render
    rw [h]
    rfl
  · intro k e tname p ctx hp hmiss hlook
    have hload : load_template e tname true = str "\x7b\x7b> " ++ p ++ str " \x7d\x7d" := by
      unfold load_template
      rw [hlook]
    have hne : (str "\x7b\x7b> " ++ p ++ str " \x7d\x7d").isEmpty = false := rfl
    have hrw : render_partials_aux (k + 2) e true (str "\x7b\x7b> " ++ p ++ str " \x7d\x7d") =
        some (partial_not_found p) := rpAux_wholeref e k hp hmiss
    unfold render
    rw [hload]
    simp only [hne, Bool.false_eq_true, if_false, hrw]
    rw [subVars_noDB _ _ (noDB_partial_not_found hp)]

/-- C5 witness: a missing template and a missing partial at concrete inputs. -/
theorem c5_not_found_placeholders_witness :
    render 30 eEmpty (str "nope.html") [] true =
      some (template_not_found (str "nope.html")) ∧
    render 2 ⟨[(str "t.html", str "\x7b\x7b> p \x7d\x7d")], []⟩ (str "t.html") [] true =
      some (partial_not_found (str "p")) :=
  ⟨c5_not_found_placeholders.1 30 eEmpty (str "nope.html") [] rfl,
   c5_not_found_placeholders.2 0 ⟨[(str "t.html", str "\x7b\x7b> p \x7d\x7d")], []⟩
     (str "t.html") (str "p") [] rfl rfl rfl⟩

/-- C2 counterexample: in `render_with_defaults` (the default-aware path), a
variable present in the context with an empty-string value is substituted by
the empty string — the literal `\x7b\x7b x \x7d\x7d` placeholder is NOT
preserved. -/
theorem c2_empty_preserved_counterexample :
    render_with_defaults 10 eC2 (str "t.html") [(str "x", str "")] = some [] ∧
    some ([] : Str) ≠ some (str "\x7b\x7b x \x7d\x7d") :=
  ⟨rfl, by decide⟩

/-- C2 (amended): both render entry points treat an empty-but-present value
as present: for any context mapping `x` to any value `v` (including the
empty string), rendering a template whose body is `\x7b\x7b x \x7d\x7d`
substitutes `v`, and `render_with_defaults` agrees with `render` — the two
entry points do not differ on this case. -/
theorem c2_empty_present_substituted (g : Nat) (e : TemplateEngine) (tname x v : Str)
    (ctx : List (Str × Str)) (hx : goodName x = true)
    (hlook : lookupStr e.tfiles tname = some (str "\x7b\x7b " ++ x ++ str " \x7d\x7d"))
    (hctx : lookupStr ctx x = some v) :
    render_with_defaults (x.length + g + 7) e tname ctx = some v ∧
    render (x.length + g + 7) e tname ctx true = some v := by
  have hx' : ∀ c ∈ x, (c == '{') = false := fun c hc =>
    goodNameChar_not_lbrace ((goodName_parts hx).2 c hc)
  have hload : load_template e tname true = str "\x7b\x7b " ++ x ++ str " \x7d\x7d" := by
    unfold load_template
    rw [hlook]
  have hne : (str "\x7b\x7b " ++ x ++ str " \x7d\x7d").isEmpty = false := rfl
  have hrp : render_partials_aux (x.length + g + 7) e true
      (str "\x7b\x7b " ++ x ++ str " \x7d\x7d") =
      some (str "\x7b\x7b " ++ x ++ str " \x7d\x7d") := by
    show render_partials_aux (x.length + g + 7) e true
      ('{':: '{':: ' '::(x ++ (' ':: '}':: '}'::[]))) =
      some ('{':: '{':: ' '::(x ++ (' ':: '}':: '}'::[])))
    have h3 : x.length + g + 7 = (x.length + (g + 4)) + 3 := by omega
    rw [h3, rpAux_open3, rpAux_copy e true hx' (g + 4) (' ':: '}':: '}'::[]),
      rpAux_tail3]
    rfl
  have hsv : sub_vars ctx (str "\x7b\x7b " ++ x ++ str " \x7d\x7d") = v := by
    show sub_vars ctx ('{':: '{':: ' '::(x ++ (' ':: '}':: '}'::[]))) = v
    exact subVars_single ctx hx hctx
  have h2 : render (x.length + g + 7) e tname ctx true = some v := by
    unfold render
    rw [hload]
    simp only [hne, Bool.false_eq_true, if_false, hrp, hsv]
  exact ⟨h2, h2⟩

/-- C2 witness: the amended claim at the concrete engine whose template body
is `\x7b\x7b x \x7d\x7d` and the context `x ↦ ""`. -/
theorem c2_empty_present_substituted_witness :
    render_with_defaults 10 eC2 (str "t.html") [(str "x", str "")] = some [] ∧
    render 10 eC2 (str "t.html") [(str "x", str "")] true = some [] :=
  c2_empty_present_substituted 2 eC2 (str "t.html") (str "x") [] [(str "x", [])] rfl rfl rfl

theorem tagged_of_noLt : ∀ {s : Str}, (∀ c ∈ s, c ≠ '<') → Tagged s := by
  intro s
  induction s with
  | nil => intro _; exact Tagged.nil
  | cons c cs ih =>
    intro h
    exact Tagged.chr (h c (by simp)) (ih (fun d hd => h d (by simp [hd])))

theorem tagged_append : ∀ {a b : Str}, Tagged a → Tagged b → Tagged (a ++ b) := by
  intro a b ha hb
  induction ha with
  | nil => simpa using hb
  | chr hc _ ih => exact Tagged.chr hc ih
  | tag hp _ ih =>
    rw [List.cons_append, List.append_assoc]
    exact Tagged.tag hp ih

theorem tagged_tag_append {p : Str} (t : Str) (hp : p ∈ tagTails) (h : Tagged t) :
    Tagged (('<' :: p) ++ t) := by
  show Tagged ('<' :: (p ++ t))
  exact Tagged.tag hp h

theorem tagged_cons_inv {c : Char} {t : Str} (h : Tagged (c :: t)) (hc : c ≠ '<') :
    Tagged t := by
  cases h with
  | chr _ ht => exact ht
  | tag hp ht => exact absurd rfl hc

theorem infix_cons_elim {x : Str} {a : Char} {l : Str} (h : x <:+: a :: l) :
    x <+: a :: l ∨ x <:+: l := by
  obtain ⟨s, t, hst⟩ := h
  cases s with
  | nil =>
    left
    exact ⟨t, by simpa using hst⟩
  | cons b s' =>
    right
    rw [List.cons_append, List.cons_append] at hst
    exact ⟨s', t, by simpa using congrArg List.tail hst⟩

theorem infix_through : ∀ {p : Str} {x t : Str}, x.head? = some '<' →
    (∀ c ∈ p, c ≠ '<') → x <:+: p ++ t → x <:+: t := by
  intro p
  induction p with
  | nil => intro x t _ _ h; simpa using h
  | cons a p' ih =>
    intro x t hx hp h
    rw [List.cons_append] at h
    rcases infix_cons_elim h with hpre | hinf
    · obtain ⟨t2, ht2⟩ := hpre
      exfalso
      apply hp a (by simp)
      cases x with
      | nil => simp at hx
      | cons x0 x' =>
        injection ht2 with h1 _
        simp at hx
        rw [h1] at hx
        exact hx
    · exact ih hx (fun c hc => hp c (by simp [hc])) hinf

theorem tagTails_script_overlap :
    ∀ p ∈ tagTails, ¬ (p <+: str "script") ∧ ¬ (str "script" <+: p) := by decide

theorem tagged_no_script : ∀ {s : Str}, Tagged s → ¬ ((str "<script") <:+: s) := by
  intro s h
  induction h with
  | nil =>
    intro hx
    obtain ⟨a, b, hab⟩ := hx
    simp [str] at hab
  | chr hc _ ih =>
    intro hx
    rcases infix_cons_elim hx with hpre | hinf
    · obtain ⟨t2, ht2⟩ := hpre
      apply hc
      have hh := congrArg List.head? ht2
      simpa [str] using hh.symm
    · exact ih hinf
  | tag hp _ ih =>
    intro hx
    rcases infix_cons_elim hx with hpre | hinf
    · obtain ⟨t2, ht2⟩ := hpre
      have htail : str "script" ++ t2 = _ ++ _ := congrArg List.tail ht2
      rw [List.append_eq_append_iff] at htail
      rcases htail with ⟨a', ha1, _⟩ | ⟨c', hc1, _⟩
      · exact (tagTails_script_overlap _ hp).2 ⟨a', ha1.symm⟩
      · exact (tagTails_script_overlap _ hp).1 ⟨c', hc1.symm⟩
    · refine ih (infix_through (by simp [str]) ?_ hinf)
      intro c hc
      have : ∀ p ∈ tagTails, ∀ d ∈ p, d ≠ '<' := by decide
      exact this _ hp c hc

theorem escChar_no_lt (c : Char) : ∀ d ∈ escChar c, d ≠ '<' := by
  unfold escChar
  split_ifs with h1 h2 h3 h4 h5
  · decide
  · decide
  · decide
  · decide
  · decide
  · intro d hd
    simp at hd
    subst hd
    intro hc
    subst hc
    simp at h2

theorem escape_no_lt (s : Str) : ∀ d ∈ escape_html s, d ≠ '<' := by
  intro d hd
  unfold escape_html at hd
  rw [List.mem_flatMap] at hd
  obtain ⟨c, _, hdc⟩ := hd
  exact escChar_no_lt c d hdc

theorem digitChar_isDigit (d : Nat) : (digitChar d).isDigit = true := by
  unfold digitChar
  split_ifs <;> decide

theorem natDigits_aux_digits : ∀ (f n : Nat), ∀ c ∈ natDigits_aux f n, c.isDigit = true := by
  intro f
  induction f with
  | zero => intro n c hc; simp [natDigits_aux] at hc
  | succ k ih =>
    intro n c hc
    unfold natDigits_aux at hc
    split_ifs at hc
    · simp at hc
      subst hc
      exact digitChar_isDigit n
    · rw [List.mem_append] at hc
      rcases hc with hc | hc
      · exact ih _ c hc
      · simp at hc
        subst hc
        exact digitChar_isDigit (n % 10)

theorem beq_false_of_digit_nondigit {c d : Char} (h : c.isDigit = true)
    (hd : d.isDigit = false) : (c == d) = false := by
  cases hb : (c == d) with
  | false => rfl
  | true =>
    have := eq_of_beq hb
    subst this
    rw [h] at hd
    cases hd

theorem escChar_digit {c : Char} (h : c.isDigit = true) : escChar c = [c] := by
  unfold escChar
  rw [beq_false_of_digit_nondigit h (by decide),
      beq_false_of_digit_nondigit h (by decide),
      beq_false_of_digit_nondigit h (by decide),
      beq_false_of_digit_nondigit h (by decide),
      beq_false_of_digit_nondigit h (by decide)]
  rfl

theorem flatMap_escChar_id : ∀ {s : Str}, (∀ c ∈ s, escChar c = [c]) → escape_html s = s := by
  intro s
  induction s with
  | nil => intro _; rfl
  | cons c cs ih =>
    intro h
    unfold escape_html
    rw [List.flatMap_cons, h c (by simp)]
    show c :: escape_html cs = c :: cs
    rw [ih (fun d hd => h d (by simp [hd]))]

theorem escape_placeholder_id (i : Nat) :
    escape_html (code_block_placeholder i) = code_block_placeholder i := by
  apply flatMap_escChar_id
  intro c hc
  unfold code_block_placeholder at hc
  rcases List.mem_append.mp hc with hc1 | hc2
  · rcases List.mem_append.mp hc1 with hc3 | hc4
    · exact (by decide : ∀ d ∈ str "___CODE_BLOCK_", escChar d = [d]) c hc3
    · exact escChar_digit (natDigits_aux_digits _ _ c hc4)
  · exact (by decide : ∀ d ∈ str "___", escChar d = [d]) c hc2

theorem pyReplace_aux_self : ∀ (f : Nat) (s p : Str), pyReplace_aux f s p p = s := by
  intro f
  induction f with
  | zero => intro s p; rfl
  | succ k ih =>
    intro s p
    cases s with
    | nil => rfl
    | cons c cs =>
      show (if p.isPrefixOf (c :: cs) then p ++ pyReplace_aux k ((c :: cs).drop p.length) p p
            else c :: pyReplace_aux k cs p p) = c :: cs
      by_cases hp : p.isPrefixOf (c :: cs)
      · rw [if_pos hp]
        obtain ⟨t, ht⟩ := List.isPrefixOf_iff_prefix.mp hp
        rw [← ht, List.drop_left, ih]
      · rw [if_neg hp, ih]

theorem restore_id (t : Str) : ∀ n, restore_placeholders t n = t := by
  intro n
  induction n with
  | zero => rfl
  | succ k ih =>
    unfold restore_placeholders
    rw [ih, escape_placeholder_id]
    unfold pyReplace
    rw [pyReplace_aux_self]

theorem dropWhile_head_false {P : Char → Bool} :
    ∀ (s : Str) {b : Char} {r : Str}, s.dropWhile P = b :: r → P b = false := by
  intro s
  induction s with
  | nil => intro b r h; simp at h
  | cons c cs ih =>
    intro b r h
    rw [List.dropWhile_cons] at h
    split_ifs at h with hc
    · exact ih h
    · injection h with h1 _
      subst h1
      simpa using hc

theorem tagged_dropWhile {P : Char → Bool} (hP : P '<' = false) :
    ∀ {s : Str}, Tagged s → Tagged (s.dropWhile P) := by
  intro s h
  induction h with
  | nil => exact Tagged.nil
  | chr hc ht ih =>
    rw [List.dropWhile_cons]
    split_ifs
    · exact ih
    · exact Tagged.chr hc ht
  | tag hp ht _ =>
    rw [List.dropWhile_cons, hP]
    simp only [Bool.false_eq_true, if_false]
    exact Tagged.tag hp ht

theorem rstrip_cons (P : Char → Bool) (c : Char) (cs : Str) :
    rstrip P (c :: cs) =
      if (rstrip P cs).isEmpty && P c then [] else c :: rstrip P cs := rfl

theorem rstrip_all_skip {P : Char → Bool} :
    ∀ {p : Str} (t : Str), (∀ c ∈ p, P c = false) → rstrip P (p ++ t) = p ++ rstrip P t := by
  intro p
  induction p with
  | nil => intro t _; rfl
  | cons c p' ih =>
    intro t h
    rw [List.cons_append, rstrip_cons, h c (by simp), ih t (fun d hd => h d (by simp [hd]))]
    simp

theorem tagged_rstrip {P : Char → Bool} (hP : P '<' = false)
    (hPt : ∀ p ∈ tagTails, ∀ d ∈ p, P d = false) :
    ∀ {s : Str}, Tagged s → Tagged (rstrip P s) := by
  intro s h
  induction h with
  | nil => exact Tagged.nil
  | @chr c t hc _ ih =>
    rw [rstrip_cons]
    by_cases hb : ((rstrip P t).isEmpty && P c) = true
    · rw [if_pos hb]
      exact Tagged.nil
    · rw [if_neg hb]
      exact Tagged.chr hc ih
  | @tag p t hp _ ih =>
    rw [rstrip_cons, rstrip_all_skip _ (hPt _ hp), hP]
    simp only [Bool.and_false, Bool.false_eq_true, if_false]
    exact Tagged.tag hp ih

theorem tagged_pyStrip {P : Char → Bool} (hP : P '<' = false)
    (hPt : ∀ p ∈ tagTails, ∀ d ∈ p, P d = false) {s : Str} (h : Tagged s) :
    Tagged (pyStrip P s) :=
  tagged_rstrip hP hPt (tagged_dropWhile hP h)

theorem rstrip_sublist {P : Char → Bool} : ∀ (s : Str), List.Sublist (rstrip P s) s := by
  intro s
  induction s with
  | nil => exact List.Sublist.refl _
  | cons c cs ih =>
    rw [rstrip_cons]
    by_cases hb : ((rstrip P cs).isEmpty && P c) = true
    · rw [if_pos hb]
      exact List.nil_sublist _
    · rw [if_neg hb]
      exact List.Sublist.cons₂ c ih

theorem pyStrip_subset {P : Char → Bool} {s : Str} : ∀ c ∈ pyStrip P s, c ∈ s := by
  intro c hc
  unfold pyStrip at hc
  have h1 := (rstrip_sublist (P := P) (s.dropWhile P)).subset hc
  exact (List.dropWhile_sublist (l := s) (p := P)).subset h1

theorem matchBold_some {s content rest : Str}
    (h : matchBold s = some (content, rest)) :
    s = '*' :: '*' :: (content ++ '*' :: '*' :: rest) ∧ content ≠ [] ∧
      ∀ c ∈ content, (c == '*') = false := by
  cases s with
  | nil => exact absurd h (by simp [matchBold])
  | cons a s1 =>
    cases s1 with
    | nil =>
      exfalso
      unfold matchBold at h
      rw [show (([a] : Str).head? == some '*') = (a == '*') from rfl,
          show ((([a] : Str).drop 1).head? == some '*') = false from rfl] at h
      simp at h
    | cons b s2 =>
      unfold matchBold at h
      rw [show ((a :: b :: s2 : Str).head? == some '*') = (a == '*') from rfl,
          show (((a :: b :: s2 : Str).drop 1).head? == some '*') = (b == '*') from rfl] at h
      cases ha : (a == '*') with
      | false => rw [ha] at h; simp at h
      | true =>
        cases hb : (b == '*') with
        | false => rw [hb] at h; simp at h
        | true =>
          rw [ha, hb] at h
          simp only [Bool.and_self, if_true] at h
          have hd2 : (a :: b :: s2 : Str).drop 2 = s2 := rfl
          rw [hd2] at h
          cases hce : (s2.takeWhile (fun c => !(c == '*'))).isEmpty with
          | true => rw [hce] at h; simp at h
          | false =>
            rw [hce] at h
            simp only [Bool.false_eq_true, if_false] at h
            cases hr : s2.dropWhile (fun c => !(c == '*')) with
            | nil => rw [hr] at h; simp at h
            | cons r0 r1 =>
              rw [hr] at h
              cases r1 with
              | nil =>
                rw [show (((r0 :: [] : Str).drop 1).head? == some '*') = false from rfl] at h
                simp at h
              | cons r1h r2 =>
                rw [show ((r0 :: r1h :: r2 : Str).head? == some '*') = (r0 == '*') from rfl,
                    show (((r0 :: r1h :: r2 : Str).drop 1).head? == some '*') = (r1h == '*')
                      from rfl] at h
                cases hr0 : (r0 == '*') with
                | false => rw [hr0] at h; simp at h
                | true =>
                  cases hr1 : (r1h == '*') with
                  | false => rw [hr1] at h; simp at h
                  | true =>
                    rw [hr0, hr1] at h
                    simp only [Bool.and_self, if_true, Option.some.injEq, Prod.mk.injEq] at h
                    obtain ⟨hcon, hres⟩ := h
                    have hres' : r2 = rest := hres
                    have hsplit := List.takeWhile_append_dropWhile
                      (p := fun c => !(c == '*')) (l := s2)
                    rw [hr] at hsplit
                    have ha' := eq_of_beq ha
                    have hb' := eq_of_beq hb
                    have hr0' := eq_of_beq hr0
                    have hr1' := eq_of_beq hr1
                    subst hcon hres' ha' hb' hr0' hr1'
                    refine ⟨?_, ?_, ?_⟩
                    · rw [hsplit]
                    · intro hnil
                      rw [hnil] at hce
                      simp at hce
                    · intro c hc
                      have := List.mem_takeWhile_imp hc
                      simpa using this

theorem matchItalic_some {prev : Option Char} {s content rest : Str}
    (h : matchItalic prev s = some (content, rest)) :
    s = '*' :: (content ++ '*' :: rest) ∧ content ≠ [] ∧
      ∀ c ∈ content, (c == '*') = false := by
  cases s with
  | nil => exact absurd h (by simp [matchItalic])
  | cons a s1 =>
    unfold matchItalic at h
    rw [show ((a :: s1 : Str).head? == some '*') = (a == '*') from rfl] at h
    cases ha : (a == '*') with
    | false => rw [ha] at h; simp at h
    | true =>
      cases hprev : (prev == some '*') with
      | true => rw [ha, hprev] at h; simp at h
      | false =>
        rw [ha, hprev] at h
        simp only [Bool.not_false, Bool.and_self, if_true] at h
        have hd1 : (a :: s1 : Str).drop 1 = s1 := rfl
        rw [hd1] at h
        cases hce : (s1.takeWhile (fun c => !(c == '*') && !(c == '\n'))).isEmpty with
        | true => rw [hce] at h; simp at h
        | false =>
          rw [hce] at h
          simp only [Bool.false_eq_true, if_false] at h
          cases hr : s1.dropWhile (fun c => !(c == '*') && !(c == '\n')) with
          | nil => rw [hr] at h; simp at h
          | cons r0 r1 =>
            rw [hr] at h
            rw [show ((r0 :: r1 : Str).head? == some '*') = (r0 == '*') from rfl,
                show ((r0 :: r1 : Str).drop 1) = r1 from rfl] at h
            cases hr0 : (r0 == '*') with
            | false => rw [hr0] at h; simp at h
            | true =>
              cases hlook : (r1.head? == some '*') with
              | true => rw [hr0, hlook] at h; simp at h
              | false =>
                rw [hr0, hlook] at h
                simp only [Bool.not_false, Bool.and_self, if_true, Option.some.injEq,
                  Prod.mk.injEq] at h
                obtain ⟨hcon, hres⟩ := h
                have hsplit := List.takeWhile_append_dropWhile
                  (p := fun c => !(c == '*') && !(c == '\n')) (l := s1)
                rw [hr] at hsplit
                have ha' := eq_of_beq ha
                have hr0' := eq_of_beq hr0
                subst hcon hres ha' hr0'
                refine ⟨?_, ?_, ?_⟩
                · rw [hsplit]
                · intro hnil
                  rw [hnil] at hce
                  simp at hce
                · intro c hc
                  have := List.mem_takeWhile_imp hc
                  simp only [Bool.and_eq_true, Bool.not_eq_true'] at this
                  exact this.1

theorem matchTick_some {s content rest : Str}
    (h : matchTick s = some (content, rest)) :
    s = '`' :: (content ++ '`' :: rest) ∧ content ≠ [] ∧
      ∀ c ∈ content, (c == '`') = false := by
  cases s with
  | nil => exact absurd h (by simp [matchTick])
  | cons a s1 =>
    unfold matchTick at h
    rw [show ((a :: s1 : Str).head? == some '`') = (a == '`') from rfl] at h
    cases ha : (a == '`') with
    | false => rw [ha] at h; simp at h
    | true =>
      rw [ha] at h
      simp only [if_true] at h
      have hd1 : (a :: s1 : Str).drop 1 = s1 := rfl
      rw [hd1] at h
      cases hce : (s1.takeWhile (fun c => !(c == '`'))).isEmpty with
      | true => rw [hce] at h; simp at h
      | false =>
        rw [hce] at h
        simp only [Bool.false_eq_true, if_false] at h
        cases hr : s1.dropWhile (fun c => !(c == '`')) with
        | nil => rw [hr] at h; simp at h
        | cons r0 r1 =>
          rw [hr] at h
          rw [show ((r0 :: r1 : Str).head? == some '`') = (r0 == '`') from rfl,
              show ((r0 :: r1 : Str).drop 1) = r1 from rfl] at h
          cases hr0 : (r0 == '`') with
          | false => rw [hr0] at h; simp at h
          | true =>
            rw [hr0] at h
            simp only [if_true, Option.some.injEq, Prod.mk.injEq] at h
            obtain ⟨hcon, hres⟩ := h
            have hsplit := List.takeWhile_append_dropWhile
              (p := fun c => !(c == '`')) (l := s1)
            rw [hr] at hsplit
            have ha' := eq_of_beq ha
            have hr0' := eq_of_beq hr0
            subst hcon hres ha' hr0'
            refine ⟨?_, ?_, ?_⟩
            · rw [hsplit]
            · intro hnil
              rw [hnil] at hce
              simp at hce
            · intro c hc
              have := List.mem_takeWhile_imp hc
              simpa using this

theorem boldSub_aux_tagged : ∀ (fuel : Nat) (s : Str), (∀ c ∈ s, c ≠ '<') →
    Tagged (boldSub_aux fuel s) := by
  intro fuel
  induction fuel with
  | zero => intro s h; exact tagged_of_noLt h
  | succ f ih =>
    intro s h
    cases s with
    | nil => exact Tagged.nil
    | cons c cs =>
      rcases hm : matchBold (c :: cs) with _ | ⟨content, rest⟩
      · simp only [boldSub_aux, hm]
        exact Tagged.chr (h c (by simp)) (ih cs (fun d hd => h d (by simp [hd])))
      · simp only [boldSub_aux, hm]
        obtain ⟨hshape, _, _⟩ := matchBold_some hm
        have hcm : ∀ d ∈ content, d ≠ '<' := by
          intro d hd
          apply h
          rw [hshape]
          simp [hd]
        have hrm : ∀ d ∈ rest, d ≠ '<' := by
          intro d hd
          apply h
          rw [hshape]
          simp [hd]
        have T1 : Tagged (str "<strong>" ++ content) := by
          show Tagged (('<' :: str "strong>") ++ content)
          exact tagged_tag_append content (by decide) (tagged_of_noLt hcm)
        have T2 : Tagged (str "</strong>") := by
          show Tagged (('<' :: str "/strong>") ++ ([] : Str))
          exact tagged_tag_append [] (by decide) Tagged.nil
        exact tagged_append (tagged_append T1 T2) (ih rest hrm)

theorem matchItalic_none_of {prev : Option Char} {c : Char} (l : Str)
    (hc : (c == '*') = false) : matchItalic prev (c :: l) = none := by
  unfold matchItalic
  rw [show ((c :: l : Str).head? == some '*') = (c == '*') from rfl, hc]
  simp

theorem matchTick_none_of {c : Char} (l : Str) (hc : (c == '`') = false) :
    matchTick (c :: l) = none := by
  unfold matchTick
  rw [show ((c :: l : Str).head? == some '`') = (c == '`') from rfl, hc]
  simp

theorem italic_copy : ∀ (p : Str), (∀ c ∈ p, (c == '*') = false) →
    ∀ (f : Nat) (prev : Option Char) (t : Str),
    ∃ (prev' : Option Char) (f' : Nat),
      italicSub_aux f prev (p ++ t) = p ++ italicSub_aux f' prev' t := by
  intro p
  induction p with
  | nil => intro _ f prev t; exact ⟨prev, f, rfl⟩
  | cons c p' ih =>
    intro h f prev t
    cases f with
    | zero =>
      refine ⟨prev, 0, ?_⟩
      show (c :: p') ++ t = (c :: p') ++ italicSub_aux 0 prev t
      rfl
    | succ k =>
      rw [List.cons_append]
      have hm := @matchItalic_none_of prev c (p' ++ t) (h c (by simp))
      simp only [italicSub_aux, hm]
      obtain ⟨prev', f', heq⟩ := ih (fun d hd => h d (by simp [hd])) k (some c) t
      exact ⟨prev', f', by rw [heq, List.cons_append]⟩

theorem tick_copy : ∀ (p : Str), (∀ c ∈ p, (c == '`') = false) →
    ∀ (f : Nat) (t : Str),
    ∃ (f' : Nat), tickSub_aux f (p ++ t) = p ++ tickSub_aux f' t := by
  intro p
  induction p with
  | nil => intro _ f t; exact ⟨f, rfl⟩
  | cons c p' ih =>
    intro h f t
    cases f with
    | zero =>
      refine ⟨0, ?_⟩
      show (c :: p') ++ t = (c :: p') ++ tickSub_aux 0 t
      rfl
    | succ k =>
      rw [List.cons_append]
      have hm := matchTick_none_of (p' ++ t) (h c (by simp))
      simp only [tickSub_aux, hm]
      obtain ⟨f', heq⟩ := ih (fun d hd => h d (by simp [hd])) k t
      exact ⟨f', by rw [heq, List.cons_append]⟩

theorem tagTails_no_star : ∀ p ∈ tagTails, ∀ d ∈ p, (d == '*') = false := by decide

theorem tagTails_no_tick : ∀ p ∈ tagTails, ∀ d ∈ p, (d == '`') = false := by decide


theorem tagged_split_aux {sep : Char} (hsepP : ∀ p ∈ tagTails, sep ∉ p) (hsep : sep ≠ '<') :
    ∀ (n : Nat) (x : Str) {y : Str}, x.length ≤ n → Tagged (x ++ sep :: y) → sep ∉ x →
    Tagged x ∧ Tagged y := by
  intro n
  induction n with
  | zero =>
    intro x y hlen h hx
    have hxnil : x = [] := by
      cases x
      · rfl
      · simp at hlen
    subst hxnil
    simp only [List.nil_append] at h
    exact ⟨Tagged.nil, tagged_cons_inv h hsep⟩
  | succ n ih =>
    intro x y hlen h hx
    cases x with
    | nil =>
      simp only [List.nil_append] at h
      exact ⟨Tagged.nil, tagged_cons_inv h hsep⟩
    | cons a x' =>
      rw [List.cons_append] at h
      generalize hw : x' ++ sep :: y = w at h
      cases h with
      | chr ha ht =>
        subst hw
        obtain ⟨T1, T2⟩ := ih x' (by simp at hlen; omega) ht (fun hm => hx (by simp [hm]))
        exact ⟨Tagged.chr ha T1, T2⟩
      | @tag p t hp ht =>
        rcases List.append_eq_append_iff.mp hw.symm with ⟨u, hu1, hu2⟩ | ⟨v, hv1, hv2⟩
        · subst hu1
          rw [hu2] at ht
          obtain ⟨Tu, Ty⟩ := ih u (by simp [List.length_append] at hlen; omega) ht
            (fun hm => hx (by simp [hm]))
          refine ⟨?_, Ty⟩
          exact Tagged.tag hp Tu
        · cases v with
          | nil =>
            rw [List.append_nil] at hv1
            have hty : Tagged (sep :: y) := by
              rw [List.nil_append] at hv2
              rw [← hv2] at ht
              exact ht
            refine ⟨?_, tagged_cons_inv hty hsep⟩
            rw [← hv1]
            have h0 : Tagged ('<' :: (p ++ ([] : Str))) := Tagged.tag hp Tagged.nil
            simpa using h0
          | cons v0 v' =>
            exfalso
            rw [List.cons_append] at hv2
            injection hv2 with h1 _
            apply hsepP _ hp
            rw [hv1, h1]
            simp

theorem tagged_split {sep : Char} (hsepP : ∀ p ∈ tagTails, sep ∉ p) (hsep : sep ≠ '<')
    {x y : Str} (h : Tagged (x ++ sep :: y)) (hx : sep ∉ x) : Tagged x ∧ Tagged y :=
  tagged_split_aux hsepP hsep x.length x le_rfl h hx

theorem italic_tagged : ∀ (n : Nat) (s : Str), s.length ≤ n →
    ∀ (prev : Option Char) (fuel : Nat), Tagged s → Tagged (italicSub_aux fuel prev s) := by
  intro n
  induction n with
  | zero =>
    intro s hlen prev fuel hs
    have : s = [] := by
      cases s
      · rfl
      · simp at hlen
    subst this
    cases fuel <;> exact Tagged.nil
  | succ n ih =>
    intro s hlen prev fuel hs
    cases fuel with
    | zero => exact hs
    | succ f =>
      cases s with
      | nil => exact Tagged.nil
      | cons c cs =>
        rcases hm : matchItalic prev (c :: cs) with _ | ⟨content, rest⟩
        · simp only [italicSub_aux, hm]
          cases hs with
          | chr hc ht =>
            exact Tagged.chr hc (ih cs (by simp at hlen; omega) (some c) f ht)
          | @tag p t hp ht =>
            have hpstar : ∀ d ∈ p, (d == '*') = false := tagTails_no_star p hp
            obtain ⟨prev', f', heq⟩ := italic_copy p hpstar f (some '<') t
            rw [heq]
            refine Tagged.tag hp (ih t ?_ prev' f' ht)
            have hplen : 1 ≤ p.length := by
              cases p with
              | nil => exact absurd hp (by decide)
              | cons a q => simp
            have hsum : p.length + t.length ≤ n := by
              simpa [List.length_append] using hlen
            omega
        · simp only [italicSub_aux, hm]
          obtain ⟨hshape, hcne, hcmem⟩ := matchItalic_some hm
          have hstar_ne : '*' ∉ content := by
            intro hmem
            have := hcmem '*' hmem
            simp at this
          have hrest : Tagged (content ++ '*' :: rest) := by
            have h1 : Tagged (c :: cs) := hs
            rw [hshape] at h1
            exact tagged_cons_inv h1 (by decide)
          obtain ⟨hTc, hTr⟩ := @tagged_split '*'
            (by intro p hp hmem; exact absurd (tagTails_no_star p hp '*' hmem) (by simp))
            (by decide) _ _ hrest hstar_ne
          have hlr : rest.length ≤ n := by
            have h2 := congrArg List.length hshape
            simp [List.length_append] at h2 hlen
            omega
          have T1 : Tagged (str "<em>" ++ content) := by
            show Tagged (('<' :: str "em>") ++ content)
            exact tagged_tag_append content (by decide) hTc
          have T2 : Tagged (str "</em>") := by
            show Tagged (('<' :: str "/em>") ++ ([] : Str))
            exact tagged_tag_append [] (by decide) Tagged.nil
          exact tagged_append (tagged_append T1 T2) (ih rest hlr (some '*') f hTr)

theorem tick_tagged : ∀ (n : Nat) (s : Str), s.length ≤ n →
    ∀ (fuel : Nat), Tagged s → Tagged (tickSub_aux fuel s) := by
  intro n
  induction n with
  | zero =>
    intro s hlen fuel hs
    have : s = [] := by
      cases s
      · rfl
      · simp at hlen
    subst this
    cases fuel <;> exact Tagged.nil
  | succ n ih =>
    intro s hlen fuel hs
    cases fuel with
    | zero => exact hs
    | succ f =>
      cases s with
      | nil => exact Tagged.nil
      | cons c cs =>
        rcases hm : matchTick (c :: cs) with _ | ⟨content, rest⟩
        · simp only [tickSub_aux, hm]
          cases hs with
          | chr hc ht =>
            exact Tagged.chr hc (ih cs (by simp at hlen; omega) f ht)
          | @tag p t hp ht =>
            have hptick : ∀ d ∈ p, (d == '`') = false := tagTails_no_tick p hp
            obtain ⟨f', heq⟩ := tick_copy p hptick f t
            rw [heq]
            refine Tagged.tag hp (ih t ?_ f' ht)
            have hplen : 1 ≤ p.length := by
              cases p with
              | nil => exact absurd hp (by decide)
              | cons a q => simp
            have hsum : p.length + t.length ≤ n := by
              simpa [List.length_append] using hlen
            omega
        · simp only [tickSub_aux, hm]
          obtain ⟨hshape, hcne, hcmem⟩ := matchTick_some hm
          have htick_ne : '`' ∉ content := by
            intro hmem
            have := hcmem '`' hmem
            simp at this
          have hrest : Tagged (content ++ '`' :: rest) := by
            have h1 : Tagged (c :: cs) := hs
            rw [hshape] at h1
            exact tagged_cons_inv h1 (by decide)
          obtain ⟨hTc, hTr⟩ := @tagged_split '`'
            (by intro p hp hmem; exact absurd (tagTails_no_tick p hp '`' hmem) (by simp))
            (by decide) _ _ hrest htick_ne
          have hlr : rest.length ≤ n := by
            have h2 := congrArg List.length hshape
            simp [List.length_append] at h2 hlen
            omega
          have T1 : Tagged (str "<code>" ++ content) := by
            show Tagged ('<' :: (str "code" ++ ('>' :: content)))
            exact Tagged.tag (by decide) (Tagged.chr (by decide) hTc)
          have T2 : Tagged (str "</code>") := by
            show Tagged (('<' :: str "/code>") ++ ([] : Str))
            exact tagged_tag_append [] (by decide) Tagged.nil
          exact tagged_append (tagged_append T1 T2) (ih rest hlr f hTr)

theorem tagTails_no_boundary : ∀ p ∈ tagTails, ∀ d ∈ p, isLineBoundary d = false := by decide

theorem tagged_single_tag {p : Str} (hp : p ∈ tagTails) : Tagged ('<' :: p) := by
  have h := Tagged.tag hp Tagged.nil
  rwa [List.append_nil] at h

theorem splitlines_tagged : ∀ (n : Nat) (s : Str), s.length ≤ n → Tagged s →
    ∀ (fuel : Nat), ∀ l ∈ pySplitlines_aux fuel s, Tagged l := by
  intro n
  induction n with
  | zero =>
    intro s hlen hs fuel l hl
    have : s = [] := by
      cases s
      · rfl
      · simp at hlen
    subst this
    cases fuel with
    | zero => simp [pySplitlines_aux] at hl
    | succ f => simp [pySplitlines_aux] at hl
  | succ n ih =>
    intro s hlen hs fuel l hl
    cases fuel with
    | zero => simp [pySplitlines_aux] at hl
    | succ f =>
      cases s with
      | nil => simp [pySplitlines_aux] at hl
      | cons c cs =>
        have hsplit := List.takeWhile_append_dropWhile
          (p := fun d => !(isLineBoundary d)) (l := (c :: cs : Str))
        simp only [pySplitlines_aux] at hl
        cases hr : (c :: cs : Str).dropWhile (fun d => !(isLineBoundary d)) with
        | nil =>
          rw [hr] at hl hsplit
          simp only [List.isEmpty_nil, if_true] at hl
          rw [List.append_nil] at hsplit
          simp only [List.mem_singleton] at hl
          subst hl
          rw [hsplit]
          exact hs
        | cons b rest' =>
          rw [hr] at hl hsplit
          have hb : isLineBoundary b = true := by
            have := dropWhile_head_false (P := fun d => !(isLineBoundary d)) (c :: cs) hr
            simpa using this
          have hbne : b ≠ '<' := by
            intro hbe
            rw [hbe] at hb
            exact absurd hb (by decide)
          have hbtw : b ∉ (c :: cs : Str).takeWhile (fun d => !(isLineBoundary d)) := by
            intro hmem
            have := List.mem_takeWhile_imp hmem
            rw [hb] at this
            simp at this
          have hTs : Tagged ((c :: cs : Str).takeWhile (fun d => !(isLineBoundary d)) ++
              b :: rest') := by
            rw [hsplit]
            exact hs
          obtain ⟨Tline, Trest'⟩ := @tagged_split b
            (by
              intro p hp hmem
              have := tagTails_no_boundary p hp b hmem
              rw [hb] at this
              cases this)
            hbne _ _ hTs hbtw
          have hlenrest : rest'.length ≤ n := by
            have h2 := congrArg List.length hsplit
            simp [List.length_append] at h2 hlen
            omega
          simp only [List.isEmpty_cons, Bool.false_eq_true, if_false] at hl
          by_cases hcr : (((b :: rest' : Str).head? == some '\r') &&
              (((b :: rest' : Str).drop 1).head? == some '\n')) = true
          · rw [if_pos hcr] at hl
            rcases List.mem_cons.mp hl with rfl | hl2
            · exact Tline
            · rw [show ((b :: rest' : Str).head? == some '\r') = (b == '\r') from rfl,
                  show (((b :: rest' : Str).drop 1).head? == some '\n') =
                    (rest'.head? == some '\n') from rfl] at hcr
              simp only [Bool.and_eq_true] at hcr
              obtain ⟨_, hn⟩ := hcr
              cases rest' with
              | nil => simp at hn
              | cons r0 rest'' =>
                have hr0 : r0 = '\n' := by
                  rw [show ((r0 :: rest'' : Str).head? == some '\n') = (r0 == '\n') from rfl]
                    at hn
                  exact eq_of_beq hn
                subst hr0
                have Trest'' : Tagged rest'' := tagged_cons_inv Trest' (by decide)
                refine ih rest'' ?_ Trest'' f l ?_
                · simp at hlenrest
                  omega
                · simpa using hl2
          · rw [if_neg hcr] at hl
            rcases List.mem_cons.mp hl with rfl | hl2
            · exact Tline
            · exact ih rest' hlenrest Trest' f l (by simpa using hl2)

theorem tagged_drop_of_take_noLt : ∀ (k : Nat) (s : Str), Tagged s →
    (∀ c ∈ s.take k, c ≠ '<') → Tagged (s.drop k) := by
  intro k
  induction k with
  | zero => intro s h _; simpa using h
  | succ k ih =>
    intro s h hk
    cases s with
    | nil => exact Tagged.nil
    | cons c cs =>
      have hc : c ≠ '<' := hk c (by simp)
      have ht := tagged_cons_inv h hc
      simp only [List.drop_succ_cons]
      exact ih cs ht (fun d hd => hk d (by simp [hd]))

theorem tagged_wrap_drop {S : Str} (hTS : Tagged S) (pre : Str) (k : Nat)
    (hk : S.take k = pre) (hpre : ∀ c ∈ pre, c ≠ '<') (op cl : Str)
    (hop : op ∈ tagTails) (hcl : cl ∈ tagTails) :
    Tagged (('<' :: op) ++ (S.drop k ++ ('<' :: cl))) := by
  have hTr : Tagged (S.drop k) :=
    tagged_drop_of_take_noLt k S hTS (by rw [hk]; exact hpre)
  show Tagged ('<' :: (op ++ (S.drop k ++ ('<' :: cl))))
  exact Tagged.tag hop (tagged_append hTr (tagged_single_tag hcl))

theorem classifyLine_tagged {blocks : List (Str × Str)}
    (hb : ∀ lc ∈ blocks, ∀ d ∈ lc.2, d ≠ '<') {line : Str} (hline : Tagged line) :
    ∀ out, classifyLine blocks line = some out → Tagged out := by
  intro out hout
  have hTS : Tagged (pyStrip pyWsChar line) :=
    tagged_pyStrip (by decide) (by decide) hline
  simp only [classifyLine] at hout
  split at hout
  next idx hm =>
    split at hout
    next lc hg =>
      injection hout with h
      subst h
      have hlc : ∀ d ∈ lc.2, d ≠ '<' := hb lc (List.getElem?_mem hg)
      have hCstrip : ∀ d ∈ pyStrip pyWsChar lc.2, d ≠ '<' :=
        fun d hd => hlc d (pyStrip_subset d hd)
      have hD : Tagged (str "</code></pre>") := by
        show Tagged ('<' :: (str "/code>" ++ ('<' :: str "/pre>")))
        exact Tagged.tag (by decide) (tagged_single_tag (by decide))
      have hT2 : Tagged (pyStrip pyWsChar lc.2 ++ str "</code></pre>") :=
        tagged_append (tagged_of_noLt hCstrip) hD
      have hT3 : Tagged (str "\">" ++ (pyStrip pyWsChar lc.2 ++ str "</code></pre>")) :=
        tagged_append (tagged_of_noLt (by decide)) hT2
      have hT4 : Tagged (escape_html lc.1 ++
          (str "\">" ++ (pyStrip pyWsChar lc.2 ++ str "</code></pre>"))) :=
        tagged_append (tagged_of_noLt (escape_no_lt lc.1)) hT3
      simp only [List.append_assoc]
      show Tagged ('<' :: (str "pre>" ++ ('<' :: (str "code" ++
        (str " class=\"language-" ++ (escape_html lc.1 ++
          (str "\">" ++ (pyStrip pyWsChar lc.2 ++ str "</code></pre>"))))))))
      exact Tagged.tag (by decide) (Tagged.tag (by decide)
        (tagged_append (tagged_of_noLt (by decide)) hT4))
    next hg => simp at hout
  next hm =>
    by_cases h3 : ((str "### ").isPrefixOf (pyStrip pyWsChar line)) = true
    · rw [if_pos h3] at hout
      injection hout with h
      subst h
      obtain ⟨r, hr⟩ := List.isPrefixOf_iff_prefix.mp h3
      have hk : (pyStrip pyWsChar line).take 4 = str "### " := by rw [← hr]; rfl
      simp only [List.append_assoc]
      exact tagged_wrap_drop hTS (str "### ") 4 hk (by decide) (str "h3>") (str "/h3>")
        (by decide) (by decide)
    · rw [if_neg h3] at hout
      by_cases h2 : ((str "## ").isPrefixOf (pyStrip pyWsChar line)) = true
      · rw [if_pos h2] at hout
        injection hout with h
        subst h
        obtain ⟨r, hr⟩ := List.isPrefixOf_iff_prefix.mp h2
        have hk : (pyStrip pyWsChar line).take 3 = str "## " := by rw [← hr]; rfl
        simp only [List.append_assoc]
        exact tagged_wrap_drop hTS (str "## ") 3 hk (by decide) (str "h2>") (str "/h2>")
          (by decide) (by decide)
      · rw [if_neg h2] at hout
        by_cases h1 : ((str "# ").isPrefixOf (pyStrip pyWsChar line)) = true
        · rw [if_pos h1] at hout
          injection hout with h
          subst h
          obtain ⟨r, hr⟩ := List.isPrefixOf_iff_prefix.mp h1
          have hk : (pyStrip pyWsChar line).take 2 = str "# " := by rw [← hr]; rfl
          simp only [List.append_assoc]
          exact tagged_wrap_drop hTS (str "# ") 2 hk (by decide) (str "h1>") (str "/h1>")
            (by decide) (by decide)
        · rw [if_neg h1] at hout
          by_cases hli : ((str "- ").isPrefixOf (pyStrip pyWsChar line)) = true
          · rw [if_pos hli] at hout
            injection hout with h
            subst h
            obtain ⟨r, hr⟩ := List.isPrefixOf_iff_prefix.mp hli
            have hk : (pyStrip pyWsChar line).take 2 = str "- " := by rw [← hr]; rfl
            simp only [List.append_assoc]
            exact tagged_wrap_drop hTS (str "- ") 2 hk (by decide) (str "li>") (str "/li>")
              (by decide) (by decide)
          · rw [if_neg hli] at hout
            by_cases hbl : ((pyStrip pyWsChar line).isEmpty) = true
            · rw [if_pos hbl] at hout
              injection hout with h
              subst h
              exact Tagged.nil
            · rw [if_neg hbl] at hout
              injection hout with h
              subst h
              have hP : Tagged (str "</p>") := by
                show Tagged ('<' :: str "/p>")
                exact tagged_single_tag (by decide)
              simp only [List.append_assoc]
              show Tagged ('<' :: (str "p>" ++ (pyStrip pyWsChar line ++ str "</p>")))
              exact Tagged.tag (by decide) (tagged_append hTS hP)

theorem lineStage_tagged {blocks : List (Str × Str)}
    (hb : ∀ lc ∈ blocks, ∀ d ∈ lc.2, d ≠ '<') :
    ∀ (ls : List Str), (∀ l ∈ ls, Tagged l) →
    ∀ out, lineStage blocks ls = some out → ∀ o ∈ out, Tagged o := by
  intro ls
  induction ls with
  | nil =>
    intro _ out hout o ho
    simp only [lineStage] at hout
    injection hout with h
    subst h
    simp at ho
  | cons l rest ih =>
    intro hl out hout o ho
    simp only [lineStage] at hout
    split at hout
    next hc => simp at hout
    next c hc =>
      split at hout
      next hr => simp at hout
      next r hr =>
        injection hout with h
        subst h
        rcases List.mem_cons.mp ho with rfl | ho2
        · exact classifyLine_tagged hb (hl l (by simp)) o hc
        · exact ih (fun x hx => hl x (by simp [hx])) r hr o ho2

theorem inlineCode_tagged {l : Str} (h : Tagged l) : Tagged (inlineCodeLine l) := by
  unfold inlineCodeLine
  split
  · exact tick_tagged l.length l le_rfl (l.length + 1) h
  · exact h

theorem ulWrap_aux_tagged : ∀ (ls : List Str) (inUl : Bool), (∀ l ∈ ls, Tagged l) →
    ∀ o ∈ ulWrap_aux inUl ls, Tagged o := by
  intro ls
  induction ls with
  | nil =>
    intro inUl _ o ho
    cases inUl with
    | false => simp [ulWrap_aux] at ho
    | true =>
      simp [ulWrap_aux] at ho
      subst ho
      show Tagged ('<' :: str "/ul>")
      exact tagged_single_tag (by decide)
  | cons l rest ih =>
    intro inUl hl o ho
    have hTl := hl l (by simp)
    have hrest : ∀ x ∈ rest, Tagged x := fun x hx => hl x (by simp [hx])
    have hUl : Tagged (str "<ul>") := by
      show Tagged ('<' :: str "ul>")
      exact tagged_single_tag (by decide)
    have hUlc : Tagged (str "</ul>") := by
      show Tagged ('<' :: str "/ul>")
      exact tagged_single_tag (by decide)
    simp only [ulWrap_aux] at ho
    by_cases hli : ((str "<li>").isPrefixOf l) = true
    · rw [if_pos hli] at ho
      cases inUl with
      | true =>
        simp only [if_true] at ho
        rcases List.mem_cons.mp ho with rfl | ho2
        · exact hTl
        · exact ih true hrest o ho2
      | false =>
        simp only [Bool.false_eq_true, if_false] at ho
        rcases List.mem_cons.mp ho with rfl | ho2
        · exact hUl
        · rcases List.mem_cons.mp ho2 with rfl | ho3
          · exact hTl
          · exact ih true hrest o ho3
    · rw [if_neg hli] at ho
      cases inUl with
      | true =>
        simp only [if_true] at ho
        rcases List.mem_cons.mp ho with rfl | ho2
        · exact hUlc
        · rcases List.mem_cons.mp ho2 with rfl | ho3
          · exact hTl
          · exact ih false hrest o ho3
      | false =>
        simp only [Bool.false_eq_true, if_false] at ho
        rcases List.mem_cons.mp ho with rfl | ho2
        · exact hTl
        · exact ih false hrest o ho2

theorem joinNL_tagged : ∀ (ls : List Str), (∀ l ∈ ls, Tagged l) → Tagged (joinNL ls) := by
  intro ls
  induction ls with
  | nil => intro _; exact Tagged.nil
  | cons l rest ih =>
    intro hl
    cases rest with
    | nil => simpa [joinNL] using hl l (by simp)
    | cons m ms =>
      show Tagged (l ++ '\n' :: joinNL (m :: ms))
      exact tagged_append (hl l (by simp))
        (Tagged.chr (by decide) (ih (fun x hx => hl x (by simp [hx]))))

theorem ecb_blocks_clean : ∀ (fuel : Nat) (s : Str) (acc : List (Str × Str)),
    (∀ lc ∈ acc, ∀ d ∈ lc.2, d ≠ '<') →
    ∀ lc ∈ (extract_code_blocks_aux fuel s acc).2, ∀ d ∈ lc.2, d ≠ '<' := by
  intro fuel
  induction fuel with
  | zero => intro s acc hacc; simpa [extract_code_blocks_aux] using hacc
  | succ f ih =>
    intro s acc hacc
    cases s with
    | nil => simpa [extract_code_blocks_aux] using hacc
    | cons c cs =>
      simp only [extract_code_blocks_aux]
      cases hm : matchFence (c :: cs) with
      | none => exact ih cs acc hacc
      | some t =>
        obtain ⟨lang, code, rest⟩ := t
        refine ih rest (acc ++ [(lang, escape_html code)]) ?_
        intro lc hlc d hd
        rcases List.mem_append.mp hlc with h | h
        · exact hacc lc h d hd
        · simp only [List.mem_singleton] at h
          subst h
          exact escape_no_lt code d hd

theorem safe_markdown_tagged : ∀ {md out : Str}, safe_markdown md = some out → Tagged out := by
  intro md out h
  simp only [safe_markdown] at h
  by_cases he : md.isEmpty = true
  · rw [if_pos he] at h
    injection h with h
    subst h
    exact Tagged.nil
  · rw [if_neg he] at h
    rw [restore_id] at h
    split at h
    next hls => simp at h
    next ls hls =>
      injection h with h
      subst h
      have hclean : ∀ lc ∈ (extract_code_blocks_aux ((pyStrip pyWsChar md).length + 1)
          (pyStrip pyWsChar md) []).2, ∀ d ∈ lc.2, d ≠ '<' :=
        ecb_blocks_clean _ _ [] (by simp)
      have hbold : Tagged (boldSub (escape_html (extract_code_blocks_aux
          ((pyStrip pyWsChar md).length + 1) (pyStrip pyWsChar md) []).1)) :=
        boldSub_aux_tagged _ _ (escape_no_lt _)
      have hit : Tagged (italicSub (boldSub (escape_html (extract_code_blocks_aux
          ((pyStrip pyWsChar md).length + 1) (pyStrip pyWsChar md) []).1))) :=
        italic_tagged _ _ le_rfl none _ hbold
      have hlines : ∀ l ∈ pySplitlines (italicSub (boldSub (escape_html
          (extract_code_blocks_aux ((pyStrip pyWsChar md).length + 1)
            (pyStrip pyWsChar md) []).1))), Tagged l :=
        fun l hl => splitlines_tagged _ _ le_rfl hit _ l hl
      have hlsT : ∀ o ∈ ls, Tagged o := lineStage_tagged hclean _ hlines ls hls
      refine joinNL_tagged _ (ulWrap_aux_tagged _ false ?_)
      intro o ho
      obtain ⟨x, hx, rfl⟩ := List.mem_map.mp ho
      exact inlineCode_tagged (hlsT x hx)

/-- C3: every successful `safe_markdown` conversion HTML-escapes raw markup, so
the output never contains the substring `<script>alert(1)</script>`; and a
fenced code block is rendered as an escaped `<pre><code>` block. -/
theorem c3_markdown_escaping :
    (∀ md out : Str, safe_markdown md = some out →
      ¬ ((str "<script>alert(1)</script>") <:+: out)) ∧
    safe_markdown (str "```\n<b>\n```") =
      some (str "<pre><code class=\"language-\">&lt;b&gt;</code></pre>") := by
  constructor
  · intro md out h hinf
    have hT := safe_markdown_tagged h
    have hpre : (str "<script") <+: (str "<script>alert(1)</script>") :=
      ⟨str ">alert(1)</script>", rfl⟩
    exact tagged_no_script hT (hpre.isInfix.trans hinf)
  · rfl

set_option maxRecDepth 4000 in
/-- Witness for C3: the canonical script-injection input is itself escaped to a
plain paragraph that does not contain the script tag. -/
theorem c3_markdown_escaping_witness :
    safe_markdown (str "<script>alert(1)</script>") =
        some (str "<p>&lt;script&gt;alert(1)&lt;/script&gt;</p>") ∧
    ¬ ((str "<script>alert(1)</script>") <:+:
        (str "<p>&lt;script&gt;alert(1)&lt;/script&gt;</p>")) :=
  ⟨rfl, c3_markdown_escaping.1 (str "<script>alert(1)</script>")
    (str "<p>&lt;script&gt;alert(1)&lt;/script&gt;</p>") rfl⟩
